import Mathlib

/-!
# Formal model of the CellClash server core (src/server.js, third server section)

This file gives a shallow embedding in Lean 4 of the per-room simulation core of
the CellClash server (the ES-module server starting at the `import express` line
of src/server.js: constants, spawnAgent, grow, baseSpeed, tickRoom phases,
the /input split branch, and /join).  JavaScript numbers are idealized as real
numbers; `Math.hypot`, `Math.sqrt`, `Math.cos`, `Math.sin` become their exact
counterparts on `ℝ`.  The unseeded global generator `Math.random()` is modelled
as an explicit stream `ℕ → ℝ` threaded through the functions that call it, and
the room's seeded generator (`mulberry32(hashSeed code)`) likewise as a stream
together with a draw counter.
-/

namespace CellClash

open Classical
noncomputable section

/-- WORLD constant from the source (`const WORLD = 5200`). -/
def WORLD : ℝ := 5200

/-- TICK_RATE constant (`const TICK_RATE = 20`). -/
def TICK_RATE : ℝ := 20

/-- DT constant (`const DT = 1 / TICK_RATE`). -/
def DT : ℝ := 1 / 20

/-- clamp from the source: `Math.max(lo, Math.min(hi, v))`. -/
def clamp (v lo hi : ℝ) : ℝ := max lo (min hi v)

/-- Math.hypot on two arguments. -/
def hypot (x y : ℝ) : ℝ := Real.sqrt (x * x + y * y)

/-- normalize from the source: zero vector below the 1e-6 magnitude cutoff,
otherwise the vector scaled to unit length. -/
def normalize (x y : ℝ) : ℝ × ℝ :=
  let L := hypot x y
  if L < 1e-6 then (0, 0) else (x / L, y / L)

/-- Blob record: one physical body of an agent (x, y, vx, vy, mass, r,
splitTimer fields of the blob objects in the source). -/
structure Blob where
  x : ℝ
  y : ℝ
  vx : ℝ
  vy : ℝ
  mass : ℝ
  r : ℝ
  splitTimer : ℝ


/-- Pellet record (x, y, r, v). -/
structure Pellet where
  x : ℝ
  y : ℝ
  r : ℝ
  v : ℝ


/-- Virus record (x, y, r). -/
structure Virus where
  x : ℝ
  y : ℝ
  r : ℝ


/-- Agent record: id, name, isBot, colour channels, dead flag, aim, boost,
lastSeen, and the ordered blob list. -/
structure Agent where
  id : String
  name : String
  isBot : Bool
  colR : ℝ
  colG : ℝ
  colB : ℝ
  dead : Bool
  aimX : ℝ
  aimY : ℝ
  boost : Bool
  lastSeen : ℝ
  blobs : List Blob

/-- agentMass from the source: sum of the agent's blob masses. -/
def agentMass (a : Agent) : ℝ := (a.blobs.map Blob.mass).sum

/-- Total mass of a bare blob list (used to state conservation properties). -/
def blobsMass (l : List Blob) : ℝ := (l.map Blob.mass).sum

/-- canEat from the source: `er > pr * 1.12`. -/
def canEat (er pr : ℝ) : Prop := er > pr * 1.12

/-- canEngulf from the source: center distance below `er - pr * 0.65`. -/
def canEngulf (ex ey er px py pr : ℝ) : Prop :=
  hypot (ex - px) (ey - py) < er - pr * 0.65

/-- baseSpeed from the source: size penalty, soft-cap congestion penalty and
boost multiplier. -/
def baseSpeed (r totalMass : ℝ) (boosting : Bool) : ℝ :=
  let sizePenalty := max 0.26 (1.0 - r / 215)
  let softCap : ℝ := 1400
  let capPenalty :=
    if totalMass > softCap then clamp (1.0 - (totalMass - softCap) / softCap * 0.55) 0.55 1.0
    else 1.0
  let v := 260 * sizePenalty * capPenalty
  if boosting then v * 1.55 else v

/-- growPenalty: the gain multiplier applied by grow, `clamp(softCap / mass,
0.25, 1.0)` above the soft cap and 1 otherwise. -/
def growPenalty (m : ℝ) : ℝ :=
  if m > 1400 then clamp (1400 / m) 0.25 1.0 else 1.0

/-- grow from the source: adds the penalty-scaled gain to the mass and a fixed
0.22 fraction of the applied gain to the radius. -/
def grow (b : Blob) (amount : ℝ) : Blob :=
  let gain := amount * growPenalty b.mass
  { b with mass := b.mass + gain, r := b.r + gain * 0.22 }

/-- clampPos: the boundary clamp applied to each coordinate in the movement
step, `clamp(p, r, WORLD - r)`. -/
def clampPos (p r : ℝ) : ℝ := clamp p r (WORLD - r)

/-- moveBlob: the per-blob body of the movement + decay loop of tickRoom
(aim displacement, boundary clamp, residual knockback, velocity decay,
split timer advance, passive mass/radius decay with floors, and the human
boost cost). -/
def moveBlob (isBot : Bool) (aimX aimY : ℝ) (boost : Bool) (total : ℝ) (b : Blob) : Blob :=
  let v := baseSpeed b.r total boost
  let x1 := b.x + aimX * v * DT
  let y1 := b.y + aimY * v * DT
  let x2 := clampPos x1 b.r
  let y2 := clampPos y1 b.r
  let x3 := x2 + b.vx * DT
  let y3 := y2 + b.vy * DT
  let vx1 := b.vx * (1 - clamp (DT * 3.8) 0 1)
  let vy1 := b.vy * (1 - clamp (DT * 3.8) 0 1)
  let st1 := b.splitTimer + DT
  let decay := (if isBot then 0.16 else 0.22) * DT
  let mass1 := max 10 (b.mass - decay)
  let r1 := max 14 (b.r - decay * 0.08)
  if isBot = false ∧ boost = true then
    let d := 1.75 * DT * (mass1 / max 1 total)
    { x := x3, y := y3, vx := vx1, vy := vy1,
      mass := max 10 (mass1 - d), r := max 14 (r1 - d * 0.12), splitTimer := st1 }
  else
    { x := x3, y := y3, vx := vx1, vy := vy1,
      mass := mass1, r := r1, splitTimer := st1 }

/-- bestIdx: the index selection loop of the /input split branch
(`for (i = 1; ...) if (blobs[i].r > blobs[best].r) best = i`), starting from
accumulator `best` with `blobs[best]` radius `bestR`, scanning `rest` whose
first element has index `i`. -/
def bestIdxAux (best : ℕ) (bestR : ℝ) (i : ℕ) : List Blob → ℕ
  | [] => best
  | c :: rest =>
      if c.r > bestR then bestIdxAux i c.r (i + 1) rest
      else bestIdxAux best bestR (i + 1) rest

/-- bestIdx over a full blob list (the source initialises `best = 0`). -/
def bestIdx : List Blob → ℕ
  | [] => 0
  | c :: rest => bestIdxAux 0 c.r 1 rest

/-- inputSplit: the voluntary-split branch of the /input route.  Selects the
largest-radius blob; when its radius is at least `14 * 2.2` it halves its mass,
shrinks its radius by 0.72 (floored at 14), appends the sibling just outside
along the aim direction with a 580 outward impulse, and zeroes both split
timers; otherwise it is a no-op. -/
def inputSplit (a : Agent) : Agent :=
  let best := bestIdx a.blobs
  match a.blobs[best]? with
  | none => a
  | some b =>
      if b.r ≥ 14 * 2.2 then
        let dir := normalize a.aimX a.aimY
        let newMass := b.mass * 0.5
        let b1 : Blob :=
          { b with mass := b.mass * 0.5, r := max 14 (b.r * 0.72), splitTimer := 0 }
        let sib : Blob :=
          { x := b1.x + dir.1 * (b1.r + 8), y := b1.y + dir.2 * (b1.r + 8),
            vx := dir.1 * 580, vy := dir.2 * 580,
            mass := newMass, r := max 14 b1.r, splitTimer := 0 }
        { a with blobs := (a.blobs.set best b1) ++ [sib] }
      else a

/-- hashSeed from the source: FNV-style fold over the room code's character
codes, kept in 32 bits, with a final `|| 1` replacing 0 by 1.  (The JS
expression `(h * 16777619) >>> 0` is idealized as an exact multiplication
reduced mod 2^32; JS doubles round products above 2^53, an artefact of the
float representation that no claim depends on.) -/
def hashSeed (code : String) : ℕ :=
  let h := code.data.foldl (fun h c => ((h ^^^ c.toNat) * 16777619) % 4294967296) 2166136261
  if h = 0 then 1 else h

/-- mulberryOut: the k-th output word of mulberry32 for a given seed.  The JS
closure advances its seed by 0x6D2B79F5 before each output; all bitwise
operators coerce mod 2^32, so the k-th call sees `seed + (k+1)*0x6D2B79F5`
reduced mod 2^32. -/
def mulberryOut (seed k : ℕ) : ℕ :=
  let t0 := (seed + (k + 1) * 1831565813) % 4294967296
  let t1 := ((t0 ^^^ (t0 >>> 15)) * (t0 ||| 1)) % 4294967296
  let t2 := (t1 ^^^ (t1 + ((t1 ^^^ (t1 >>> 7)) * (t1 ||| 61)) % 4294967296)) % 4294967296
  t2 ^^^ (t2 >>> 14)

/-- mulberryStream: the seeded generator as a stream of reals in [0, 1)
(`((t ^ (t >>> 14)) >>> 0) / 4294967296`). -/
def mulberryStream (seed : ℕ) : ℕ → ℝ :=
  fun k => (mulberryOut seed k : ℝ) / 4294967296

/-- spawnAgent from the source.  `rng` is the room's seeded draw stream and `k`
the number of draws consumed so far; the pair returned carries the new draw
count.  `now` stands for `Date.now() / 1000`.  Draw order matches the source:
startMass and startR (bots only), the three colour channels, then the blob's
x and y. -/
def spawnAgent (id name : String) (isBot : Bool) (rng : ℕ → ℝ) (k : ℕ) (now : ℝ) :
    Agent × ℕ :=
  let startMass := if isBot then 32 + rng k * 70 else 55
  let startR := if isBot then 22 + rng (k + 1) * 20 else 36
  let kc := if isBot then k + 2 else k
  let colR := (⌊70 + rng kc * 185⌋ : ℤ)
  let colG := (⌊70 + rng (kc + 1) * 185⌋ : ℤ)
  let colB := (⌊70 + rng (kc + 2) * 185⌋ : ℤ)
  let b : Blob :=
    { x := 280 + rng (kc + 3) * (WORLD - 560), y := 280 + rng (kc + 4) * (WORLD - 560),
      vx := 0, vy := 0, mass := startMass, r := startR, splitTimer := 999 }
  ({ id := id, name := name, isBot := isBot,
     colR := colR, colG := colG, colB := colB,
     dead := false, aimX := 0, aimY := 0, boost := false,
     lastSeen := now, blobs := [b] }, kc + 5)

/-- virusPieces: the 8 fragments pushed when a blob pops on a virus.  `m` is
the global Math.random stream and `j` the next draw index; each piece consumes
three draws in source order (angle, vx speed, vy speed). -/
def virusPieces (b : Blob) (m : ℕ → ℝ) (j : ℕ) : List Blob :=
  let pieceMass := b.mass / 8
  let pieceR := max 14 (b.r / Real.sqrt 8)
  (List.range 8).map (fun k =>
    let ang := m (j + 3 * k) * Real.pi * 2
    let dx := Real.cos ang
    let dy := Real.sin ang
    { x := b.x + dx * (b.r + 10), y := b.y + dy * (b.r + 10),
      vx := dx * (270 + m (j + 3 * k + 1) * 220),
      vy := dy * (270 + m (j + 3 * k + 2) * 220),
      mass := pieceMass, r := pieceR, splitTimer := 0 })

/-- virusInnerPop: the inner `for (const v of room.viruses)` loop for a blob
whose (stale) radius is at least 62.  `b` is the stale reference captured by
`const b = a.blobs[bi]`: the source keeps testing it against the remaining
viruses even after it has been spliced out, so every overlapping virus splices
index `bi` from the current list and appends 8 fresh pieces.  Returns the
updated blob list and math-draw index. -/
def virusInnerPop (b : Blob) (bi : ℕ) (m : ℕ → ℝ) :
    List Virus → List Blob × ℕ → List Blob × ℕ
  | [], st => st
  | v :: vs, (blobs, j) =>
      if hypot (b.x - v.x) (b.y - v.y) < b.r + v.r then
        virusInnerPop b bi m vs (blobs.eraseIdx bi ++ virusPieces b m j, j + 24)
      else
        virusInnerPop b bi m vs (blobs, j)

/-- virusInnerBounce: the inner virus loop for a blob with radius below 62;
each overlapping virus adds a 220 knockback impulse along the virus-to-blob
line. -/
def virusInnerBounce (vs : List Virus) (b : Blob) : Blob :=
  vs.foldl (fun b v =>
    if hypot (b.x - v.x) (b.y - v.y) < b.r + v.r then
      let n := normalize (b.x - v.x) (b.y - v.y)
      { b with vx := b.vx + n.1 * 220, vy := b.vy + n.2 * 220 }
    else b) b

/-- virusBlobStep: the body of the outer blob loop of the virus phase at index
`bi`.  The branch is fixed by the stale radius: at or above 62 every
overlapping virus pops (splice + 8 pieces), below it the accumulated bounce
impulses are written back at index `bi`. -/
def virusBlobStep (vs : List Virus) (m : ℕ → ℝ) (bi : ℕ) (st : List Blob × ℕ) :
    List Blob × ℕ :=
  match st.1[bi]? with
  | none => st
  | some b =>
      if b.r ≥ 62 then
        virusInnerPop b bi m vs st
      else
        (st.1.set bi (virusInnerBounce vs b), st.2)

/-- virusAgentLoop: the outer loop `for (bi = a.blobs.length - 1; bi >= 0;
bi--)`, processing indices `bi, bi-1, ..., 0`. -/
def virusAgentLoop (vs : List Virus) (m : ℕ → ℝ) :
    ℕ → List Blob × ℕ → List Blob × ℕ
  | 0, st => virusBlobStep vs m 0 st
  | bi + 1, st => virusAgentLoop vs m bi (virusBlobStep vs m (bi + 1) st)

/-- virusPhaseAgent: the virus phase for one agent's blob list (the source
initialises the outer index at `a.blobs.length - 1`; an empty list is
skipped). -/
def virusPhaseAgent (vs : List Virus) (m : ℕ → ℝ) (blobs : List Blob) (j : ℕ) :
    List Blob × ℕ :=
  match blobs with
  | [] => (blobs, j)
  | _ => virusAgentLoop vs m (blobs.length - 1) (blobs, j)

/-- Tagged blob: a blob together with its position in the agent's original
blob list, used to track identities through the engulf phase. -/
abbrev TBlob := ℕ × Blob

/-- EngulfEvent: one engulfment recorded during the processing of an agent
pair.  `aEats = true` means the A-side blob tagged `eater` ate the B-side blob
tagged `eaten`; `aEats = false` means the B-side blob tagged `eater` ate the
A-side blob tagged `eaten`. -/
structure EngulfEvent where
  aEats : Bool
  eater : ℕ
  eaten : ℕ

/-- engulfGain: the mass passed to grow on engulfment, `eaten.mass *
clamp(eaten.mass / max(1, eater.mass), 0.12, 0.50)`. -/
def engulfGain (eaterMass eatenMass : ℝ) : ℝ :=
  eatenMass * clamp (eatenMass / max 1 eaterMass) 0.12 0.50

/-- BiOut: outcome of one iteration of the inner engulf loop — either the loop
continues with an updated A blob and B list, or the A blob was eaten and the
loop breaks. -/
inductive BiOut
  | next (ab : TBlob) (Bs : List TBlob) (evs : List EngulfEvent)
  | halt (Bs : List TBlob) (evs : List EngulfEvent)

/-- engulfBiStep: the body of the inner engulf loop at B-side index `bi` for
the current A blob `ab`: A eats B (splice B, continue), B eats A (grow B in
place, break), or nothing. -/
def engulfBiStep (ab : TBlob) (Bs : List TBlob) (bi : ℕ) : BiOut :=
  match Bs[bi]? with
  | none => BiOut.next ab Bs []
  | some bb =>
      if canEat ab.2.r bb.2.r ∧ canEngulf ab.2.x ab.2.y ab.2.r bb.2.x bb.2.y bb.2.r then
        BiOut.next (ab.1, grow ab.2 (engulfGain ab.2.mass bb.2.mass))
          (Bs.eraseIdx bi) [⟨true, ab.1, bb.1⟩]
      else if canEat bb.2.r ab.2.r ∧ canEngulf bb.2.x bb.2.y bb.2.r ab.2.x ab.2.y ab.2.r then
        BiOut.halt (Bs.set bi (bb.1, grow bb.2 (engulfGain bb.2.mass ab.2.mass)))
          [⟨false, bb.1, ab.1⟩]
      else BiOut.next ab Bs []

/-- engulfBiLoop: the inner `for (bi = B.blobs.length - 1; bi >= 0; bi--)`
loop of the engulf phase, processing indices `bi, bi-1, ..., 0` of the current
B list.  A `none` first component means the A blob was eaten (break). -/
def engulfBiLoop : TBlob → List TBlob → ℕ → Option TBlob × List TBlob × List EngulfEvent
  | ab, Bs, 0 =>
      match engulfBiStep ab Bs 0 with
      | BiOut.next ab1 Bs1 evs => (some ab1, Bs1, evs)
      | BiOut.halt Bs1 evs => (none, Bs1, evs)
  | ab, Bs, bi + 1 =>
      match engulfBiStep ab Bs (bi + 1) with
      | BiOut.next ab1 Bs1 evs =>
          let rest := engulfBiLoop ab1 Bs1 bi
          (rest.1, rest.2.1, evs ++ rest.2.2)
      | BiOut.halt Bs1 evs => (none, Bs1, evs)

/-- engulfAiStep: the body of the outer engulf loop at A-side index `ai`: the
inner loop runs over the current B list; a surviving A blob is written back
(possibly grown), an eaten one is spliced out. -/
def engulfAiStep (As Bs : List TBlob) (ai : ℕ) :
    List TBlob × List TBlob × List EngulfEvent :=
  match As[ai]? with
  | none => (As, Bs, [])
  | some ab =>
      let inner := engulfBiLoop ab Bs (Bs.length - 1)
      match inner.1 with
      | some ab1 => (As.set ai ab1, inner.2.1, inner.2.2)
      | none => (As.eraseIdx ai, inner.2.1, inner.2.2)

/-- engulfAiLoop: the outer `for (ai = A.blobs.length - 1; ai >= 0; ai--)`
loop, processing indices `ai, ai-1, ..., 0` of the current A list. -/
def engulfAiLoop : List TBlob → List TBlob → ℕ → List TBlob × List TBlob × List EngulfEvent
  | As, Bs, 0 => engulfAiStep As Bs 0
  | As, Bs, ai + 1 =>
      let s := engulfAiStep As Bs (ai + 1)
      let rest := engulfAiLoop s.1 s.2.1 ai
      (rest.1, rest.2.1, s.2.2 ++ rest.2.2)

/-- processPair: the engulf phase for one agent pair, on blob lists tagged
with their original indices.  Returns the surviving tagged A and B lists and
the list of engulf events in source order. -/
def processPair (As Bs : List Blob) :
    List TBlob × List TBlob × List EngulfEvent :=
  match As with
  | [] => (As.enum, Bs.enum, [])
  | _ => engulfAiLoop As.enum Bs.enum (As.length - 1)

/-- engulfAgentsPair: the per-pair body of the engulf phase at the agent
level, including the `if (X.blobs.length === 0) X.dead = true` marking.  Dead
agents are skipped as in the source's `if (A.dead) continue`. -/
def engulfAgentsPair (A B : Agent) : Agent × Agent :=
  if A.dead = true ∨ B.dead = true then (A, B)
  else
    let res := processPair A.blobs B.blobs
    let As := res.1.map Prod.snd
    let Bs := res.2.1.map Prod.snd
    ({ A with blobs := As, dead := A.dead || decide (As = []) },
     { B with blobs := Bs, dead := B.dead || decide (Bs = []) })

/-- isThreat: the bot-AI threat test for the bot's first blob `b` against
another blob `ob` — within the 900 perception radius and radius more than 1.10
times the bot's. -/
def isThreat (b ob : Blob) : Prop :=
  hypot (b.x - ob.x) (b.y - ob.y) < 900 ∧ ob.r > b.r * 1.10

/-- isPrey: the bot-AI prey test — within the 900 perception radius and the
bot's radius more than 1.20 times the other's. -/
def isPrey (b ob : Blob) : Prop :=
  hypot (b.x - ob.x) (b.y - ob.y) < 900 ∧ b.r > ob.r * 1.20

/-- ScanSt: the accumulator of the bot-AI scan loop (bestThreat/bestThreatD,
bestPrey/bestPreyD, initialised to none and 1e9). -/
structure ScanSt where
  threat : Option Blob
  threatD : ℝ
  prey : Option Blob
  preyD : ℝ

/-- scanInit from the source (`bestThreat = null, bestThreatD = 1e9`, same for
prey). -/
def scanInit : ScanSt := ⟨none, 1e9, none, 1e9⟩

/-- scanStep: the body of the bot-AI scan over one other blob. -/
def scanStep (b : Blob) (st : ScanSt) (ob : Blob) : ScanSt :=
  let d := hypot (b.x - ob.x) (b.y - ob.y)
  if d < 900 then
    let st1 := if ob.r > b.r * 1.10 ∧ d < st.threatD
      then { st with threat := some ob, threatD := d } else st
    if b.r > ob.r * 1.20 ∧ d < st1.preyD
      then { st1 with prey := some ob, preyD := d } else st1
  else st

/-- scanBlobs: the full threat/prey scan of the bot's first blob over the
other agents' blobs (in iteration order). -/
def scanBlobs (b : Blob) (obs : List Blob) : ScanSt :=
  obs.foldl (scanStep b) scanInit

/-- otherBlobs: the blobs scanned by a bot: all blobs of agents that are not
itself and not dead, in agent order. -/
def otherBlobs (agents : List Agent) (a : Agent) : List Blob :=
  (agents.filter (fun o => o.id ≠ a.id ∧ o.dead = false)).flatMap Agent.blobs

/-- BotBranch: which branch of the bot decision fired (flee a threat, chase a
prey, or wander toward a pellet). -/
inductive BotBranch
  | flee
  | chase
  | wander

/-- pelletPick: `room.pellets[Math.floor(rng() * room.pellets.length)]`, with
JS out-of-range indexing yielding undefined (none). -/
def pelletPick (pellets : List Pellet) (rdraw : ℝ) : Option Pellet :=
  let i := ⌊rdraw * (pellets.length : ℝ)⌋
  if i < 0 then none else pellets[i.toNat]?

/-- botDecide: the per-bot decision of the bot-AI phase, for first blob `b`,
scanned blobs `obs`, pellet list, seeded draw `rdraw` (consumed only in the
wander branch) and Math.random draw `mdraw` (consumed only in the chase
branch).  Returns the normalized aim, the boost flag and the branch taken. -/
def botDecide (b : Blob) (obs : List Blob) (pellets : List Pellet)
    (rdraw mdraw : ℝ) : (ℝ × ℝ) × Bool × BotBranch :=
  let st := scanBlobs b obs
  match st.threat with
  | some t => (normalize (b.x - t.x) (b.y - t.y), false, BotBranch.flee)
  | none =>
    match st.prey with
    | some p => (normalize (p.x - b.x) (p.y - b.y), decide (mdraw < 0.20), BotBranch.chase)
    | none =>
      match pelletPick pellets rdraw with
      | some p => (normalize (p.x - b.x) (p.y - b.y), false, BotBranch.wander)
      | none => (normalize 0 0, false, BotBranch.wander)

/-- botAgentStep: the bot-AI phase body for one agent: dead agents, humans and
agents with no first blob are untouched; otherwise the decision is written
into aimX/aimY/boost and the draw counters advance according to the branch
taken (`k` counts seeded draws, `j` counts Math.random draws). -/
def botAgentStep (pellets : List Pellet) (rng m : ℕ → ℝ) (agents : List Agent)
    (a : Agent) (k j : ℕ) : Agent × ℕ × ℕ :=
  if a.dead = true ∨ a.isBot = false then (a, k, j)
  else
    match a.blobs.head? with
    | none => (a, k, j)
    | some b =>
        let out := botDecide b (otherBlobs agents a) pellets (rng k) (m j)
        let a1 := { a with aimX := out.1.1, aimY := out.1.2, boost := out.2.1 }
        match out.2.2 with
        | BotBranch.flee => (a1, k, j)
        | BotBranch.chase => (a1, k, j + 1)
        | BotBranch.wander => (a1, k + 1, j)

/-- botAIPhaseAux: iterates botAgentStep over the agent list in place, `i`
being the index of the next agent and `n` the number of agents still to
process.  The scan of each agent sees the current (partially updated) list,
as iteration over the live Map does in the source. -/
def botAIPhaseAux (pellets : List Pellet) (rng m : ℕ → ℝ) :
    ℕ → ℕ → List Agent → ℕ → ℕ → List Agent × ℕ × ℕ
  | 0, _, agents, k, j => (agents, k, j)
  | n + 1, i, agents, k, j =>
      match agents[i]? with
      | none => (agents, k, j)
      | some a =>
          let step := botAgentStep pellets rng m agents a k j
          botAIPhaseAux pellets rng m n (i + 1) (agents.set i step.1) step.2.1 step.2.2

/-- botAIPhase: the bot-AI phase of tickRoom over the whole agent list. -/
def botAIPhase (pellets : List Pellet) (rng m : ℕ → ℝ) (agents : List Agent)
    (k j : ℕ) : List Agent × ℕ × ℕ :=
  botAIPhaseAux pellets rng m agents.length 0 agents k j

/-- sansBoost: an agent with its boost flag normalized to false; two agents
agree on every field except possibly boost iff their images agree. -/
def sansBoost (a : Agent) : Agent := { a with boost := false }

/-- Room record: the per-room state carried by the server (maxPlayers and bot
count as stored, the agents keyed by id, pellets, viruses, and the seeded
generator as its stream plus the number of draws consumed). -/
structure Room where
  maxPlayers : ℝ
  botCount : ℝ
  agents : List Agent
  pellets : List Pellet
  viruses : List Virus
  rngDraws : ℕ → ℝ
  rngK : ℕ

/-- setAgent: `room.agents.set(id, agent)` on the id-keyed agent collection —
replaces the agent under an existing id in place, otherwise appends. -/
def setAgent (l : List Agent) (x : Agent) : List Agent :=
  if l.any (fun a => a.id = x.id) then
    l.map (fun a => if a.id = x.id then x else a)
  else l ++ [x]

/-- humanCount: the `let humans = 0; for ... if (!a.isBot) humans++` count of
the /join route. -/
def humanCount (l : List Agent) : ℕ := (l.filter (fun a => a.isBot = false)).length

/-- JoinRes: outcome of the /join route — room not found, room full, or
success with the updated room and the joining id. -/
inductive JoinRes
  | notFound
  | full
  | ok (room : Room) (id : String)

/-- joinRoom: the /join route against a store of rooms: unknown code rejects
with not-found; a human count at or above maxPlayers rejects with full;
otherwise a fresh human agent is spawned from the room's seeded generator and
installed under the given id (replacing any agent already stored under it). -/
def joinRoom (store : String → Option Room) (code id name : String) (now : ℝ) :
    JoinRes :=
  match store code with
  | none => JoinRes.notFound
  | some room =>
      if (humanCount room.agents : ℝ) ≥ room.maxPlayers then JoinRes.full
      else
        let sp := spawnAgent id name false room.rngDraws room.rngK now
        JoinRes.ok { room with agents := setAgent room.agents sp.1, rngK := sp.2 } id

/-- distTo: center distance between two blobs, as computed throughout the
source via Math.hypot. -/
def distTo (b ob : Blob) : ℝ := hypot (b.x - ob.x) (b.y - ob.y)

/-- mkAgent: an agent literal with the given identity, kind, aim and blobs
(colour channels and lastSeen zeroed); used to build concrete test states. -/
def mkAgent (id : String) (isBot : Bool) (aimX aimY : ℝ) (blobs : List Blob) : Agent :=
  { id := id, name := id, isBot := isBot, colR := 0, colG := 0, colB := 0,
    dead := false, aimX := aimX, aimY := aimY, boost := false,
    lastSeen := 0, blobs := blobs }

/-- mzero: a constant-zero stand-in stream for Math.random draws. -/
def mzero : ℕ → ℝ := fun _ => 0

/-- mLow: a Math.random stream constantly 0.1 (below the 0.20 boost odds). -/
def mLow : ℕ → ℝ := fun _ => 0.1

/-- mHigh: a Math.random stream constantly 0.5 (above the 0.20 boost odds). -/
def mHigh : ℕ → ℝ := fun _ => 0.5

/-- agSplit10: an agent holding a single floor-mass blob (mass 10) whose
radius 31 is above the voluntary-split threshold 14 * 2.2 = 30.8. -/
def agSplit10 : Agent := mkAgent "p1" false 1 0 [⟨100, 100, 0, 0, 10, 31, 5⟩]

/-- agSplit40: an agent holding a single blob of mass 40 and radius 36 (a
fresh human-sized blob, above the split threshold). -/
def agSplit40 : Agent := mkAgent "p2" false 1 0 [⟨100, 100, 0, 0, 40, 36, 5⟩]

/-- abEat and bbEat: an overlapping pair with radii 50 and 20 — the first can
engulf the second. -/
def abEat : Blob := ⟨100, 100, 0, 0, 50, 50, 0⟩

/-- bbEat: the smaller blob of the engulf test pair. -/
def bbEat : Blob := ⟨100, 100, 0, 0, 10, 20, 0⟩

/-- ab9: the A-side blob of the eats-and-is-eaten scenario (radius 50). -/
def ab9 : Blob := ⟨100, 100, 0, 0, 50, 50, 0⟩

/-- big9: a much larger B-side blob at the same position (radius 200). -/
def big9 : Blob := ⟨100, 100, 0, 0, 1000, 200, 0⟩

/-- small9: a small B-side blob at the same position (radius 20). -/
def small9 : Blob := ⟨100, 100, 0, 0, 10, 20, 0⟩

/-- vC4: a virus at (100, 100) with the fixed radius 36. -/
def vC4 : Virus := ⟨100, 100, 36⟩

/-- bC4: a blob at (100, 100) with radius 70 (above the 62 popping threshold)
and mass 80. -/
def bC4 : Blob := ⟨100, 100, 0, 0, 80, 70, 3⟩

/-- bBot6: the bot's blob in the randomness scenarios. -/
def bBot6 : Blob := ⟨100, 100, 0, 0, 50, 50, 0⟩

/-- bHum6: a smaller human blob 100 units to the right — prey for the bot. -/
def bHum6 : Blob := ⟨200, 100, 0, 0, 20, 20, 0⟩

/-- botA6: the bot agent of the randomness scenarios. -/
def botA6 : Agent := mkAgent "b1" true 0 0 [bBot6]

/-- humA6: the human agent of the randomness scenarios. -/
def humA6 : Agent := mkAgent "h1" false 0 0 [bHum6]

/-- bC7: the bot blob of the zero-aim scenario. -/
def bC7 : Blob := ⟨100, 100, 0, 0, 40, 20, 0⟩

/-- obC7: a threat blob at exactly the bot's position. -/
def obC7 : Blob := ⟨100, 100, 0, 0, 100, 30, 0⟩

/-- obC7w: a threat blob 100 units to the right of the bot. -/
def obC7w : Blob := ⟨200, 100, 0, 0, 100, 30, 0⟩

/-- roomW: a one-bot room with maxPlayers 8 used to exercise /join. -/
def roomW : Room :=
  { maxPlayers := 8, botCount := 1, agents := [mkAgent "b1" true 0 0 [bBot6]],
    pellets := [], viruses := [], rngDraws := mulberryStream (hashSeed "AAAAAA"),
    rngK := 0 }

/-- storeW: a room store holding roomW under code AAAAAA. -/
def storeW : String → Option Room :=
  fun c => if c = "AAAAAA" then some roomW else none

/-- ScanInv: the loop invariant of the bot-AI scan after processing the blobs
in `l`: a `none` slot means no threat (resp. prey) has been seen and the best
distance is still the 1e9 sentinel; a `some` slot holds a seen threat (resp.
prey) at the recorded distance, minimal among all seen ones. -/
def ScanInv (b : Blob) (l : List Blob) (st : ScanSt) : Prop :=
  (st.threat = none → st.threatD = 1e9 ∧ ∀ ob ∈ l, ¬isThreat b ob)
  ∧ (∀ t, st.threat = some t → t ∈ l ∧ isThreat b t ∧ st.threatD = distTo b t
      ∧ ∀ ob ∈ l, isThreat b ob → st.threatD ≤ distTo b ob)
  ∧ (st.prey = none → st.preyD = 1e9 ∧ ∀ ob ∈ l, ¬isPrey b ob)
  ∧ (∀ p, st.prey = some p → p ∈ l ∧ isPrey b p ∧ st.preyD = distTo b p
      ∧ ∀ ob ∈ l, isPrey b ob → st.preyD ≤ distTo b ob)

end

/-! ## Helper lemmas -/

/-- Evaluation rule for square roots of perfect squares. -/
theorem sqrt_eval {a b : ℝ} (hb : 0 ≤ b) (h : b * b = a) : Real.sqrt a = b := by
  rw [← h, Real.sqrt_mul_self hb]

/-- hypot vanishes at the origin. -/
theorem hypot_zero : hypot 0 0 = 0 := by
  simp [hypot]

/-- hypot along the x axis is the absolute offset (nonnegative case). -/
theorem hypot_axis {d : ℝ} (hd : 0 ≤ d) : hypot d 0 = d := by
  simp only [hypot, mul_zero, add_zero]
  exact sqrt_eval hd rfl

/-- canEngulf at coincident centers reduces to positivity of the overlap
budget. -/
theorem canEngulf_same (x y er pr : ℝ) : canEngulf x y er x y pr ↔ 0 < er - pr * 0.65 := by
  simp [canEngulf, sub_self, hypot_zero]

/-- growPenalty is at least 0.25. -/
theorem growPenalty_ge : ∀ m : ℝ, 0.25 ≤ growPenalty m := by
  intro m
  unfold growPenalty clamp
  split
  · exact le_max_left _ _
  · norm_num

/-- growPenalty is nonnegative. -/
theorem growPenalty_nonneg (m : ℝ) : 0 ≤ growPenalty m :=
  le_trans (by norm_num) (growPenalty_ge m)

/-- Mass after grow. -/
theorem grow_mass (b : Blob) (amount : ℝ) :
    (grow b amount).mass = b.mass + amount * growPenalty b.mass := rfl

/-- Radius after grow. -/
theorem grow_r (b : Blob) (amount : ℝ) :
    (grow b amount).r = b.r + amount * growPenalty b.mass * 0.22 := rfl

/-! ## C8 — growth is sub-linear above the soft cap -/

/-- C8: for the same strictly positive nominal gain, a blob with mass above
the soft cap (1400) receives strictly less mass increase than one at or below
the cap; above the cap the applied gain is the nominal gain scaled by
cap/mass, floored at 0.25; and growth never decreases the radius, which rises
by 0.22 of the applied (post-penalty) gain. -/
theorem grow_subLinear_above_cap :
    ∀ (b1 b2 : Blob) (amount : ℝ), 0 < amount → 1400 < b1.mass → b2.mass ≤ 1400 →
      ((grow b1 amount).mass - b1.mass < (grow b2 amount).mass - b2.mass)
      ∧ ((grow b1 amount).mass - b1.mass = amount * max 0.25 (min 1 (1400 / b1.mass)))
      ∧ (∀ (b : Blob) (amt : ℝ), 0 ≤ amt → b.r ≤ (grow b amt).r
            ∧ (grow b amt).r = b.r + ((grow b amt).mass - b.mass) * 0.22) := by
  intro b1 b2 amount hamt h1 h2
  have hp1 : growPenalty b1.mass = max 0.25 (min 1 (1400 / b1.mass)) := by
    unfold growPenalty clamp
    rw [if_pos h1]
    norm_num [max_comm, min_comm]
  have hlt : growPenalty b1.mass < 1 := by
    rw [hp1]
    have hpos : (0:ℝ) < b1.mass := by linarith
    have hdiv : 1400 / b1.mass < 1 := (div_lt_one hpos).mpr h1
    have : min 1 (1400 / b1.mass) < 1 := lt_of_le_of_lt (min_le_right _ _) hdiv
    exact max_lt (by norm_num) this
  have hp2 : growPenalty b2.mass = 1 := by
    unfold growPenalty
    rw [if_neg (not_lt.mpr h2)]
    norm_num
  refine ⟨?_, ?_, ?_⟩
  · rw [grow_mass, grow_mass, hp2]
    have : amount * growPenalty b1.mass < amount * 1 :=
      mul_lt_mul_of_pos_left hlt hamt
    ring_nf
    ring_nf at this
    linarith
  · rw [grow_mass, hp1]
    ring
  · intro b amt hamt'
    constructor
    · rw [grow_r]
      have : 0 ≤ amt * growPenalty b.mass * 0.22 := by
        have := growPenalty_nonneg b.mass
        positivity
      linarith
    · rw [grow_r, grow_mass]
      ring

/-- Witness for C8 at concrete masses 2800 (above cap) and 100 (below). -/
theorem grow_subLinear_above_cap_witness :
    (0:ℝ) < 10 ∧ (1400:ℝ) < 2800 ∧ (100:ℝ) ≤ 1400
    ∧ (grow ⟨0, 0, 0, 0, 2800, 100, 0⟩ 10).mass - 2800
        < (grow ⟨0, 0, 0, 0, 100, 30, 0⟩ 10).mass - 100 :=
  ⟨by norm_num, by norm_num, by norm_num,
    (grow_subLinear_above_cap ⟨0, 0, 0, 0, 2800, 100, 0⟩ ⟨0, 0, 0, 0, 100, 30, 0⟩ 10
      (by norm_num) (by norm_num) (by norm_num)).1⟩

/-! ## C2 — boundary clamping -/

/-- C2 counterexample: for a blob of radius 3000 (half-width larger than the
world), the clamp pins x to the radius, which violates the claimed
`x ≤ worldSize − radius`. -/
theorem clampPos_violation_large_radius :
    clampPos 0 3000 = 3000 ∧ ¬(clampPos 0 3000 ≤ WORLD - 3000) := by
  unfold clampPos clamp WORLD
  norm_num

/-- C2 amended: whenever the blob's diameter fits in the world
(`r ≤ WORLD − r`), the clamped coordinate lies in `[r, WORLD − r]`, keeping
the circle inside the play field. -/
theorem clampPos_within_bounds :
    ∀ (x r : ℝ), r ≤ WORLD - r → r ≤ clampPos x r ∧ clampPos x r ≤ WORLD - r := by
  intro x r h
  unfold clampPos clamp
  exact ⟨le_max_left _ _, max_le h (min_le_left _ _)⟩

/-- Witness for the amended C2 at radius 36 and an out-of-bounds candidate
position 9999. -/
theorem clampPos_within_bounds_witness :
    (36:ℝ) ≤ WORLD - 36 ∧ 36 ≤ clampPos 9999 36 ∧ clampPos 9999 36 ≤ WORLD - 36 :=
  ⟨by norm_num [WORLD],
    (clampPos_within_bounds 9999 36 (by norm_num [WORLD])).1,
    (clampPos_within_bounds 9999 36 (by norm_num [WORLD])).2⟩

/-! ## C1 — mass and radius floors -/

/-- C1 amended: the radius floor 14 is maintained by every operation (movement
decay, boost cost, growth, voluntary split, virus-pop fragments), and the mass
floor 10 is maintained by passive decay, boost cost and growth; but voluntary
splitting (and virus popping) divide the mass without reapplying the floor,
so mass can drop below 10 (see the counterexample). -/
theorem floors_under_operations :
    (∀ (isBot : Bool) (ax ay : ℝ) (boost : Bool) (total : ℝ) (b : Blob),
        10 ≤ (moveBlob isBot ax ay boost total b).mass
        ∧ 14 ≤ (moveBlob isBot ax ay boost total b).r)
    ∧ (∀ (b : Blob) (amt : ℝ), 0 ≤ amt →
        b.mass ≤ (grow b amt).mass ∧ b.r ≤ (grow b amt).r)
    ∧ (∀ a : Agent, (∀ b ∈ a.blobs, 14 ≤ b.r) → ∀ b ∈ (inputSplit a).blobs, 14 ≤ b.r)
    ∧ (∀ (b : Blob) (m : ℕ → ℝ) (j : ℕ), ∀ p ∈ virusPieces b m j, 14 ≤ p.r) := by
  refine ⟨?_, ?_, ?_, ?_⟩
  · intro isBot ax ay boost total b
    constructor <;> (unfold moveBlob; dsimp only; split <;> simp)
  · intro b amt hamt
    have hpen := growPenalty_nonneg b.mass
    constructor
    · rw [grow_mass]
      nlinarith
    · rw [grow_r]
      nlinarith
  · intro a h b hb
    unfold inputSplit at hb
    dsimp only at hb
    rcases hget : a.blobs[bestIdx a.blobs]? with _ | bb
    · rw [hget] at hb
      exact h b hb
    · rw [hget] at hb
      dsimp only at hb
      by_cases hr : bb.r ≥ 14 * 2.2
      · rw [if_pos hr] at hb
        dsimp only at hb
        rcases List.mem_append.mp hb with hmem | hmem
        · rcases List.mem_or_eq_of_mem_set hmem with hmem' | rfl
          · exact h b hmem'
          · exact le_max_left _ _
        · rcases List.mem_singleton.mp hmem with rfl
          exact le_max_left _ _
      · rw [if_neg hr] at hb
        exact h b hb
  · intro b m j p hp
    simp only [virusPieces, List.mem_map] at hp
    obtain ⟨k, _, rfl⟩ := hp
    exact le_max_left _ _

/-- Witness for the amended C1: the grow and movement floor conjuncts at a
concrete blob of mass 40 and radius 20. -/
theorem floors_under_operations_witness :
    (0:ℝ) ≤ 3
    ∧ (⟨0, 0, 0, 0, 40, 20, 0⟩ : Blob).mass ≤ (grow ⟨0, 0, 0, 0, 40, 20, 0⟩ 3).mass
    ∧ 10 ≤ (moveBlob false 1 0 true 40 ⟨0, 0, 0, 0, 40, 20, 0⟩).mass :=
  ⟨by norm_num,
    (floors_under_operations.2.1 ⟨0, 0, 0, 0, 40, 20, 0⟩ 3 (by norm_num)).1,
    (floors_under_operations.1 false 1 0 true 40 ⟨0, 0, 0, 0, 40, 20, 0⟩).1⟩

/-- C1 counterexample: voluntarily splitting a floor-mass blob (mass 10,
radius 31 ≥ 14 · 2.2) produces two blobs of mass 5 each — the mass floor 10 is
violated by the split path. -/
theorem split_breaks_mass_floor :
    ((inputSplit agSplit10).blobs.map Blob.mass) = [5, 5] ∧ ¬((10:ℝ) ≤ 5) := by
  constructor
  · unfold inputSplit agSplit10 mkAgent
    norm_num [bestIdx, bestIdxAux]
  · norm_num

/-! ## C3 — voluntary split -/

/-- Specification of the bestIdxAux scan: it either keeps the accumulator
(and nothing scanned beats it) or returns the position of a strictly better
blob that dominates the whole scanned suffix. -/
theorem bestIdxAux_cases :
    ∀ (l : List Blob) (best : ℕ) (bestR : ℝ) (i : ℕ),
      (bestIdxAux best bestR i l = best ∧ ∀ c ∈ l, c.r ≤ bestR)
      ∨ (∃ j c, bestIdxAux best bestR i l = j ∧ i ≤ j ∧ l[j - i]? = some c
            ∧ bestR < c.r ∧ ∀ d ∈ l, d.r ≤ c.r) := by
  intro l
  induction l with
  | nil =>
    intro best bestR i
    left
    exact ⟨rfl, by simp⟩
  | cons c rest ih =>
    intro best bestR i
    by_cases hc : c.r > bestR
    · rcases ih i c.r (i + 1) with ⟨heq, hall⟩ | ⟨j, c', heq, hij, hget, hlt, hall⟩
      · right
        refine ⟨i, c, ?_, le_refl i, ?_, hc, ?_⟩
        · unfold bestIdxAux
          rw [if_pos hc]
          exact heq
        · simp
        · intro d hd
          rcases List.mem_cons.mp hd with rfl | hd'
          · exact le_refl _
          · exact hall d hd'
      · right
        refine ⟨j, c', ?_, by omega, ?_, lt_trans hc hlt, ?_⟩
        · unfold bestIdxAux
          rw [if_pos hc]
          exact heq
        · have hj : j - i = (j - (i + 1)) + 1 := by omega
          rw [hj, List.getElem?_cons_succ]
          exact hget
        · intro d hd
          rcases List.mem_cons.mp hd with rfl | hd'
          · exact le_of_lt hlt
          · exact hall d hd'
    · rcases ih best bestR (i + 1) with ⟨heq, hall⟩ | ⟨j, c', heq, hij, hget, hlt, hall⟩
      · left
        refine ⟨?_, ?_⟩
        · unfold bestIdxAux
          rw [if_neg hc]
          exact heq
        · intro d hd
          rcases List.mem_cons.mp hd with rfl | hd'
          · exact not_lt.mp hc
          · exact hall d hd'
      · right
        refine ⟨j, c', ?_, by omega, ?_, hlt, ?_⟩
        · unfold bestIdxAux
          rw [if_neg hc]
          exact heq
        · have hj : j - i = (j - (i + 1)) + 1 := by omega
          rw [hj, List.getElem?_cons_succ]
          exact hget
        · intro d hd
          rcases List.mem_cons.mp hd with rfl | hd'
          · exact le_of_lt (lt_of_le_of_lt (not_lt.mp hc) hlt)
          · exact hall d hd'

/-- The blob found at the bestIdx position has maximal radius in the list. -/
theorem bestIdx_spec :
    ∀ (l : List Blob) (b : Blob), l[bestIdx l]? = some b → ∀ c ∈ l, c.r ≤ b.r := by
  intro l b hget c hc
  cases l with
  | nil => simp at hget
  | cons hd rest =>
    have hb : bestIdx (hd :: rest) = bestIdxAux 0 hd.r 1 rest := rfl
    rw [hb] at hget
    rcases bestIdxAux_cases rest 0 hd.r 1 with ⟨heq, hall⟩ | ⟨j, c', heq, hij, hgetj, hlt, hall⟩
    · rw [heq] at hget
      simp only [List.getElem?_cons_zero, Option.some.injEq] at hget
      subst hget
      rcases List.mem_cons.mp hc with rfl | hc'
      · exact le_refl _
      · exact hall c hc'
    · rw [heq] at hget
      obtain ⟨j', rfl⟩ : ∃ j', j = j' + 1 := ⟨j - 1, by omega⟩
      rw [List.getElem?_cons_succ] at hget
      have : rest[j']? = some c' := by
        have hj : j' + 1 - 1 = j' := by omega
        rw [hj] at hgetj
        exact hgetj
      rw [this] at hget
      obtain rfl := Option.some.injEq .. |>.mp hget
      rcases List.mem_cons.mp hc with rfl | hc'
      · exact le_of_lt hlt
      · exact hall c hc'

/-- Summed mapped mass after an in-place list update. -/
theorem map_sum_set :
    ∀ (l : List Blob) (i : ℕ) (x b : Blob), l[i]? = some b →
      ((l.set i x).map Blob.mass).sum = (l.map Blob.mass).sum - b.mass + x.mass := by
  intro l
  induction l with
  | nil =>
    intro i x b h
    simp at h
  | cons hd rest ih =>
    intro i x b h
    cases i with
    | zero =>
      simp only [List.getElem?_cons_zero, Option.some.injEq] at h
      subst h
      simp only [List.set, List.map_cons, List.sum_cons]
      ring
    | succ n =>
      rw [List.getElem?_cons_succ] at h
      simp only [List.set, List.map_cons, List.sum_cons]
      rw [ih n x b h]
      ring

/-- C3: the split branch selects a maximal-radius blob; at or above the
14 · 2.2 radius threshold the pair of resulting blobs carries exactly the
original mass (each half), the whole collection's mass is conserved, the
sibling sits just outside the shrunken original along the normalized aim with
a 580 outward impulse, and both split timers are reset to zero; below the
threshold the agent is unchanged. -/
theorem inputSplit_correct :
    ∀ (a : Agent) (b : Blob), a.blobs[bestIdx a.blobs]? = some b →
      (∀ c ∈ a.blobs, c.r ≤ b.r)
      ∧ (b.r ≥ 14 * 2.2 →
          (inputSplit a).blobs.length = a.blobs.length + 1
          ∧ blobsMass (inputSplit a).blobs = blobsMass a.blobs
          ∧ (∃ b1 sib : Blob,
              (inputSplit a).blobs = a.blobs.set (bestIdx a.blobs) b1 ++ [sib]
              ∧ b1.mass + sib.mass = b.mass
              ∧ b1.mass = b.mass * 0.5 ∧ sib.mass = b.mass * 0.5
              ∧ b1.splitTimer = 0 ∧ sib.splitTimer = 0
              ∧ b1.r = max 14 (b.r * 0.72)
              ∧ sib.x = b.x + (normalize a.aimX a.aimY).1 * (b1.r + 8)
              ∧ sib.y = b.y + (normalize a.aimX a.aimY).2 * (b1.r + 8)
              ∧ sib.vx = (normalize a.aimX a.aimY).1 * 580
              ∧ sib.vy = (normalize a.aimX a.aimY).2 * 580))
      ∧ (b.r < 14 * 2.2 → inputSplit a = a) := by
  intro a b hget
  refine ⟨bestIdx_spec a.blobs b hget, ?_, ?_⟩
  · intro hr
    simp only [inputSplit, hget]
    rw [if_pos hr]
    refine ⟨?_, ?_, ?_⟩
    · simp [List.length_set ..]
    · unfold blobsMass
      rw [List.map_append, List.sum_append, map_sum_set a.blobs (bestIdx a.blobs) _ b hget]
      simp
      ring
    · refine ⟨_, _, rfl, ?_, rfl, rfl, rfl, rfl, rfl, rfl, rfl, rfl, rfl⟩
      show b.mass * 0.5 + b.mass * 0.5 = b.mass
      ring
  · intro hr
    simp only [inputSplit, hget]
    rw [if_neg (not_le.mpr hr)]

/-- Witness for C3 at a single-blob agent of mass 40 and radius 36. -/
theorem inputSplit_correct_witness :
    (inputSplit agSplit40).blobs.length = agSplit40.blobs.length + 1
    ∧ blobsMass (inputSplit agSplit40).blobs = blobsMass agSplit40.blobs :=
  ⟨((inputSplit_correct agSplit40 ⟨100, 100, 0, 0, 40, 36, 5⟩ rfl).2.1 (by norm_num)).1,
    ((inputSplit_correct agSplit40 ⟨100, 100, 0, 0, 40, 36, 5⟩ rfl).2.1 (by norm_num)).2.1⟩

/-! ## C5 — engulfment conditions and effects -/

/-- grow leaves the position unchanged. -/
theorem grow_x (b : Blob) (a : ℝ) : (grow b a).x = b.x := rfl

/-- grow leaves the y coordinate unchanged. -/
theorem grow_y (b : Blob) (a : ℝ) : (grow b a).y = b.y := rfl

/-- C5: on a one-blob-per-side pair, blob A engulfs blob B exactly under
`canEat` plus `canEngulf` (margin 1.12, overlap factor 0.65); the eater then
grows by the eaten mass times the clamped [0.12, 0.50] eaten/eater ratio and
the eaten blob is removed; with neither direction enabled nothing changes;
and an agent whose blob list comes out of the pair processing empty is marked
dead in the same tick. -/
theorem engulf_pair_correct :
    ∀ (ab bb : Blob),
      ((canEat ab.r bb.r ∧ canEngulf ab.x ab.y ab.r bb.x bb.y bb.r) →
          processPair [ab] [bb]
            = ([(0, grow ab (engulfGain ab.mass bb.mass))], [], [⟨true, 0, 0⟩]))
      ∧ (¬(canEat ab.r bb.r ∧ canEngulf ab.x ab.y ab.r bb.x bb.y bb.r) →
          (canEat bb.r ab.r ∧ canEngulf bb.x bb.y bb.r ab.x ab.y ab.r) →
          processPair [ab] [bb]
            = ([], [(0, grow bb (engulfGain bb.mass ab.mass))], [⟨false, 0, 0⟩]))
      ∧ (¬(canEat ab.r bb.r ∧ canEngulf ab.x ab.y ab.r bb.x bb.y bb.r) →
          ¬(canEat bb.r ab.r ∧ canEngulf bb.x bb.y bb.r ab.x ab.y ab.r) →
          processPair [ab] [bb] = ([(0, ab)], [(0, bb)], []))
      ∧ (∀ eaterM eatenM : ℝ, 1 ≤ eaterM →
          engulfGain eaterM eatenM = eatenM * clamp (eatenM / eaterM) 0.12 0.50)
      ∧ (∀ A B : Agent, A.dead = false → B.dead = false →
          ((engulfAgentsPair A B).1.blobs = [] → (engulfAgentsPair A B).1.dead = true)
          ∧ ((engulfAgentsPair A B).2.blobs = [] → (engulfAgentsPair A B).2.dead = true)) := by
  intro ab bb
  have hshow : processPair [ab] [bb] = engulfAiLoop [(0, ab)] [(0, bb)] 0 := rfl
  refine ⟨?_, ?_, ?_, ?_, ?_⟩
  · intro h1
    rw [hshow]
    simp only [engulfAiLoop, engulfAiStep, engulfBiLoop, engulfBiStep,
      List.getElem?_cons_zero, List.length_cons, List.length_nil]
    rw [if_pos h1]
    rfl
  · intro h1 h2
    rw [hshow]
    simp only [engulfAiLoop, engulfAiStep, engulfBiLoop, engulfBiStep,
      List.getElem?_cons_zero, List.length_cons, List.length_nil]
    rw [if_neg h1, if_pos h2]
    rfl
  · intro h1 h2
    rw [hshow]
    simp only [engulfAiLoop, engulfAiStep, engulfBiLoop, engulfBiStep,
      List.getElem?_cons_zero, List.length_cons, List.length_nil]
    rw [if_neg h1, if_neg h2]
    rfl
  · intro eaterM eatenM h
    unfold engulfGain
    rw [max_eq_right h]
  · intro A B hA hB
    have hcond : ¬(A.dead = true ∨ B.dead = true) := by
      simp [hA, hB]
    constructor
    · intro h
      unfold engulfAgentsPair at h ⊢
      rw [if_neg hcond] at h ⊢
      dsimp only at h ⊢
      simp [h, hA]
    · intro h
      unfold engulfAgentsPair at h ⊢
      rw [if_neg hcond] at h ⊢
      dsimp only at h ⊢
      simp [h, hB]

/-- Witness for C5: a radius-50 blob engulfs a coincident radius-20 blob. -/
theorem engulf_pair_correct_witness :
    (canEat abEat.r bbEat.r ∧ canEngulf abEat.x abEat.y abEat.r bbEat.x bbEat.y bbEat.r)
    ∧ processPair [abEat] [bbEat]
        = ([(0, grow abEat (engulfGain abEat.mass bbEat.mass))], [], [⟨true, 0, 0⟩]) := by
  have hc : canEat abEat.r bbEat.r ∧ canEngulf abEat.x abEat.y abEat.r bbEat.x bbEat.y bbEat.r := by
    constructor
    · show canEat 50 20
      norm_num [canEat]
    · show canEngulf 100 100 50 100 100 20
      rw [canEngulf_same]
      norm_num
  exact ⟨hc, (engulf_pair_correct abEat bbEat).1 hc⟩

/-! ## C9 — one-directionality of engulfment -/

/-- Helper evaluation: processing the pair ([ab9], [big9, small9]) records the
A blob first eating the small B blob and then being eaten by the big one. -/
theorem engulf_events_eval :
    (processPair [ab9] [big9, small9]).2.2
      = [⟨true, 0, 1⟩, ⟨false, 0, 0⟩] := by
  have h1 : canEat ab9.r small9.r ∧ canEngulf ab9.x ab9.y ab9.r small9.x small9.y small9.r := by
    constructor
    · show canEat 50 20
      norm_num [canEat]
    · show canEngulf 100 100 50 100 100 20
      rw [canEngulf_same]
      norm_num
  have hg : grow ab9 (engulfGain ab9.mass small9.mass)
      = { ab9 with mass := 52, r := 50.44 } := by
    show grow ab9 (engulfGain 50 10) = _
    norm_num [grow, engulfGain, growPenalty, clamp, ab9]
  have h2 : ¬(canEat (50.44:ℝ) big9.r ∧ canEngulf 100 100 (50.44:ℝ) big9.x big9.y big9.r) := by
    intro h
    have := h.1
    norm_num [canEat, big9] at this
  have h3 : canEat big9.r (50.44:ℝ) ∧ canEngulf big9.x big9.y big9.r 100 100 (50.44:ℝ) := by
    constructor
    · show canEat 200 50.44
      norm_num [canEat]
    · show canEngulf 100 100 200 100 100 50.44
      rw [canEngulf_same]
      norm_num
  have hshow : processPair [ab9] [big9, small9]
      = engulfAiLoop [(0, ab9)] [(0, big9), (1, small9)] 0 := rfl
  rw [hshow]
  simp only [engulfAiLoop, engulfAiStep, List.getElem?_cons_zero, List.length_cons,
    List.length_nil]
  show (match (engulfBiLoop (0, ab9) [(0, big9), (1, small9)] 1).1 with
    | some ab1 => ([(0, ab9)].set 0 ab1, (engulfBiLoop (0, ab9) [(0, big9), (1, small9)] 1).2.1,
        (engulfBiLoop (0, ab9) [(0, big9), (1, small9)] 1).2.2)
    | none => ([(0, ab9)].eraseIdx 0, (engulfBiLoop (0, ab9) [(0, big9), (1, small9)] 1).2.1,
        (engulfBiLoop (0, ab9) [(0, big9), (1, small9)] 1).2.2)).2.2
    = [⟨true, 0, 1⟩, ⟨false, 0, 0⟩]
  have hbi : engulfBiLoop (0, ab9) [(0, big9), (1, small9)] 1
      = (none, [(0, grow big9 (engulfGain big9.mass 52))], [⟨true, 0, 1⟩, ⟨false, 0, 0⟩]) := by
    simp only [engulfBiLoop, engulfBiStep, List.getElem?_cons_succ, List.getElem?_cons_zero]
    rw [if_pos h1]
    simp only [List.eraseIdx]
    rw [hg]
    simp only [List.getElem?_cons_zero]
    rw [if_neg ?hneg, if_pos ?hpos]
    case hneg =>
      show ¬(canEat (50.44:ℝ) big9.r ∧ canEngulf 100 100 (50.44:ℝ) big9.x big9.y big9.r)
      exact h2
    case hpos =>
      show canEat big9.r (50.44:ℝ) ∧ canEngulf big9.x big9.y big9.r 100 100 (50.44:ℝ)
      exact h3
    rfl
  rw [hbi]

/-- C9 counterexample: within the processing of the single agent pair
([ab9], [big9, small9]) in one tick, the A-side blob tagged 0 both eats a blob
and is itself eaten. -/
theorem engulf_pair_eats_and_eaten :
    (∃ e ∈ (processPair [ab9] [big9, small9]).2.2, e.aEats = true ∧ e.eater = 0)
    ∧ (∃ e ∈ (processPair [ab9] [big9, small9]).2.2, e.aEats = false ∧ e.eaten = 0) := by
  rw [engulf_events_eval]
  exact ⟨⟨⟨true, 0, 1⟩, by simp, rfl, rfl⟩, ⟨⟨false, 0, 0⟩, by simp, rfl, rfl⟩⟩

/-- C9 amended: within a single pairwise check the two engulf directions are
mutually exclusive — for blobs of positive radius the eating conditions cannot
hold both ways (the loop body is an if/else-if). -/
theorem canEat_asymmetric :
    ∀ er pr : ℝ, 0 < pr → ¬(canEat er pr ∧ canEat pr er) := by
  intro er pr hpr h
  obtain ⟨h1, h2⟩ := h
  unfold canEat at h1 h2
  nlinarith

/-- Witness for the amended C9 at radii 50 and 20. -/
theorem canEat_asymmetric_witness :
    (0:ℝ) < 20 ∧ ¬(canEat 50 20 ∧ canEat 20 50) :=
  ⟨by norm_num, canEat_asymmetric 50 20 (by norm_num)⟩

/-! ## C4 — virus popping -/

/-- blobsMass distributes over append. -/
theorem blobsMass_append (l1 l2 : List Blob) :
    blobsMass (l1 ++ l2) = blobsMass l1 + blobsMass l2 := by
  unfold blobsMass
  rw [List.map_append, List.sum_append]

/-- A pop always produces exactly 8 fragments. -/
theorem virusPieces_length (b : Blob) (m : ℕ → ℝ) (j : ℕ) :
    (virusPieces b m j).length = 8 := by
  simp [virusPieces]

/-- The 8 fragments of a pop carry exactly the original blob's mass. -/
theorem virusPieces_mass (b : Blob) (m : ℕ → ℝ) (j : ℕ) :
    blobsMass (virusPieces b m j) = b.mass := by
  simp only [blobsMass, virusPieces, show List.range 8 = [0, 1, 2, 3, 4, 5, 6, 7] from rfl,
    List.map_cons, List.map_nil, List.sum_cons, List.sum_nil]
  ring

/-- Dropping the first fragment leaves 7. -/
theorem virusPieces_eraseIdx_zero_len (b : Blob) (m : ℕ → ℝ) (j : ℕ) :
    ((virusPieces b m j).eraseIdx 0).length = 7 := by
  simp [virusPieces, show List.range 8 = [0, 1, 2, 3, 4, 5, 6, 7] from rfl, List.eraseIdx]

/-- Dropping the first fragment removes one eighth of the mass. -/
theorem virusPieces_eraseIdx_zero_mass (b : Blob) (m : ℕ → ℝ) (j : ℕ) :
    blobsMass ((virusPieces b m j).eraseIdx 0) = b.mass - b.mass / 8 := by
  simp only [blobsMass, virusPieces, show List.range 8 = [0, 1, 2, 3, 4, 5, 6, 7] from rfl,
    List.map_cons, List.map_nil, List.eraseIdx, List.sum_cons, List.sum_nil]
  ring

/-- Helper evaluation: a radius-70, mass-80 blob overlapping two viruses is
popped twice off the stale blob reference — the second pop splices out a
fragment of the first and appends 8 more pieces. -/
theorem virus_double_pop_eval :
    virusPhaseAgent [vC4, vC4] mzero [bC4] 0
      = ((virusPieces bC4 mzero 0).eraseIdx 0 ++ virusPieces bC4 mzero 24, 48) := by
  have hov : hypot (bC4.x - vC4.x) (bC4.y - vC4.y) < bC4.r + vC4.r := by
    show hypot (100 - 100) (100 - 100) < (70:ℝ) + 36
    rw [show (100:ℝ) - 100 = 0 by norm_num, hypot_zero]
    norm_num
  have hr : bC4.r ≥ 62 := by
    show (70:ℝ) ≥ 62
    norm_num
  show virusAgentLoop [vC4, vC4] mzero 0 ([bC4], 0) = _
  simp only [virusAgentLoop, virusBlobStep, List.getElem?_cons_zero]
  rw [if_pos hr]
  simp only [virusInnerPop]
  rw [if_pos hov]
  simp only [List.eraseIdx, List.nil_append]
  rw [if_pos hov]

/-- C4 divergence at the failing input: the code leaves 15 blobs carrying
total mass 150 where the claim requires the original blob to be replaced by
exactly 8 fragments carrying its original mass 80. -/
theorem virus_double_pop :
    (virusPhaseAgent [vC4, vC4] mzero [bC4] 0).1.length = 15
    ∧ blobsMass (virusPhaseAgent [vC4, vC4] mzero [bC4] 0).1 = 150
    ∧ blobsMass [bC4] = 80
    ∧ ¬((virusPhaseAgent [vC4, vC4] mzero [bC4] 0).1.length = 8
          ∧ blobsMass (virusPhaseAgent [vC4, vC4] mzero [bC4] 0).1 = blobsMass [bC4]) := by
  rw [virus_double_pop_eval]
  have hmass : bC4.mass = 80 := rfl
  refine ⟨?_, ?_, ?_, ?_⟩
  · simp [List.length_append, virusPieces_eraseIdx_zero_len, virusPieces_length]
  · rw [blobsMass_append, virusPieces_eraseIdx_zero_mass, virusPieces_mass, hmass]
    norm_num
  · simp [blobsMass, bC4]
  · intro h
    have := h.1
    simp [List.length_append, virusPieces_eraseIdx_zero_len, virusPieces_length] at this

/-! ## C7 — bot AI decision -/

/-- Extending a best-candidate invariant over one more scanned blob that does
not replace the current candidate. -/
theorem optInv_extend (P : Blob → Prop) (D : Blob → ℝ) (l : List Blob)
    (thr : Option Blob) (thrD : ℝ) (ob : Blob)
    (h1 : thr = none → thrD = 1e9 ∧ ∀ x ∈ l, ¬P x)
    (h2 : ∀ t, thr = some t → t ∈ l ∧ P t ∧ thrD = D t ∧ ∀ x ∈ l, P x → thrD ≤ D x)
    (hnew1 : thr = none → ¬P ob)
    (hnew2 : P ob → thrD ≤ D ob) :
    (thr = none → thrD = 1e9 ∧ ∀ x ∈ l ++ [ob], ¬P x)
    ∧ (∀ t, thr = some t → t ∈ l ++ [ob] ∧ P t ∧ thrD = D t
        ∧ ∀ x ∈ l ++ [ob], P x → thrD ≤ D x) := by
  constructor
  · intro hn
    refine ⟨(h1 hn).1, ?_⟩
    intro x hx
    rcases List.mem_append.mp hx with hx' | hx'
    · exact (h1 hn).2 x hx'
    · rcases List.mem_singleton.mp hx' with rfl
      exact hnew1 hn
  · intro t ht
    obtain ⟨hmem, hP, hD, hmin⟩ := h2 t ht
    refine ⟨List.mem_append.mpr (Or.inl hmem), hP, hD, ?_⟩
    intro x hx hPx
    rcases List.mem_append.mp hx with hx' | hx'
    · exact hmin x hx' hPx
    · rcases List.mem_singleton.mp hx' with rfl
      exact hnew2 hPx

/-- Updating a best-candidate invariant with a strictly closer new
candidate. -/
theorem optInv_update (P : Blob → Prop) (D : Blob → ℝ) (l : List Blob)
    (thr : Option Blob) (thrD : ℝ) (ob : Blob)
    (h1 : thr = none → thrD = 1e9 ∧ ∀ x ∈ l, ¬P x)
    (h2 : ∀ t, thr = some t → t ∈ l ∧ P t ∧ thrD = D t ∧ ∀ x ∈ l, P x → thrD ≤ D x)
    (hob : P ob) (hupd : D ob < thrD) :
    ((some ob : Option Blob) = none → D ob = 1e9 ∧ ∀ x ∈ l ++ [ob], ¬P x)
    ∧ (∀ t, (some ob : Option Blob) = some t → t ∈ l ++ [ob] ∧ P t ∧ D ob = D t
        ∧ ∀ x ∈ l ++ [ob], P x → D ob ≤ D x) := by
  constructor
  · intro hn
    exact absurd hn (by simp)
  · intro t ht
    obtain rfl : ob = t := Option.some.injEq .. |>.mp ht
    refine ⟨List.mem_append.mpr (Or.inr (List.mem_singleton.mpr rfl)), hob, rfl, ?_⟩
    intro x hx hPx
    rcases List.mem_append.mp hx with hx' | hx'
    · cases hthr : thr with
      | none => exact absurd hPx ((h1 hthr).2 x hx')
      | some t0 => exact le_of_lt (lt_of_lt_of_le hupd ((h2 t0 hthr).2.2.2 x hx' hPx))
    · rcases List.mem_singleton.mp hx' with rfl
      exact le_refl _

/-- One scan step preserves the scan invariant. -/
theorem scanStep_inv (b : Blob) (st : ScanSt) (ob : Blob) (l : List Blob)
    (h : ScanInv b l st) : ScanInv b (l ++ [ob]) (scanStep b st ob) := by
  obtain ⟨hTN, hTS, hPN, hPS⟩ := h
  unfold scanStep
  dsimp only
  by_cases h900 : hypot (b.x - ob.x) (b.y - ob.y) < 900
  · rw [if_pos h900]
    by_cases hth : ob.r > b.r * 1.10 ∧ hypot (b.x - ob.x) (b.y - ob.y) < st.threatD
    · rw [if_pos hth]
      dsimp only
      by_cases hpr : b.r > ob.r * 1.20 ∧ hypot (b.x - ob.x) (b.y - ob.y) < st.preyD
      · rw [if_pos hpr]
        have hT := optInv_update (isThreat b) (distTo b) l st.threat st.threatD ob
          hTN hTS ⟨h900, hth.1⟩ hth.2
        have hP := optInv_update (isPrey b) (distTo b) l st.prey st.preyD ob
          hPN hPS ⟨h900, hpr.1⟩ hpr.2
        exact ⟨hT.1, hT.2, hP.1, hP.2⟩
      · rw [if_neg hpr]
        have hT := optInv_update (isThreat b) (distTo b) l st.threat st.threatD ob
          hTN hTS ⟨h900, hth.1⟩ hth.2
        have hP := optInv_extend (isPrey b) (distTo b) l st.prey st.preyD ob hPN hPS
          (fun hn hPob => hpr ⟨hPob.2, by rw [(hPN hn).1]; exact lt_trans h900 (by norm_num)⟩)
          (fun hPob => not_lt.mp (fun hlt => hpr ⟨hPob.2, hlt⟩))
        exact ⟨hT.1, hT.2, hP.1, hP.2⟩
    · rw [if_neg hth]
      by_cases hpr : b.r > ob.r * 1.20 ∧ hypot (b.x - ob.x) (b.y - ob.y) < st.preyD
      · rw [if_pos hpr]
        have hT := optInv_extend (isThreat b) (distTo b) l st.threat st.threatD ob hTN hTS
          (fun hn hTob => hth ⟨hTob.2, by rw [(hTN hn).1]; exact lt_trans h900 (by norm_num)⟩)
          (fun hTob => not_lt.mp (fun hlt => hth ⟨hTob.2, hlt⟩))
        have hP := optInv_update (isPrey b) (distTo b) l st.prey st.preyD ob
          hPN hPS ⟨h900, hpr.1⟩ hpr.2
        exact ⟨hT.1, hT.2, hP.1, hP.2⟩
      · rw [if_neg hpr]
        have hT := optInv_extend (isThreat b) (distTo b) l st.threat st.threatD ob hTN hTS
          (fun hn hTob => hth ⟨hTob.2, by rw [(hTN hn).1]; exact lt_trans h900 (by norm_num)⟩)
          (fun hTob => not_lt.mp (fun hlt => hth ⟨hTob.2, hlt⟩))
        have hP := optInv_extend (isPrey b) (distTo b) l st.prey st.preyD ob hPN hPS
          (fun hn hPob => hpr ⟨hPob.2, by rw [(hPN hn).1]; exact lt_trans h900 (by norm_num)⟩)
          (fun hPob => not_lt.mp (fun hlt => hpr ⟨hPob.2, hlt⟩))
        exact ⟨hT.1, hT.2, hP.1, hP.2⟩
  · rw [if_neg h900]
    have hT := optInv_extend (isThreat b) (distTo b) l st.threat st.threatD ob hTN hTS
      (fun _ hTob => h900 hTob.1) (fun hTob => absurd hTob.1 h900)
    have hP := optInv_extend (isPrey b) (distTo b) l st.prey st.preyD ob hPN hPS
      (fun _ hPob => h900 hPob.1) (fun hPob => absurd hPob.1 h900)
    exact ⟨hT.1, hT.2, hP.1, hP.2⟩

/-- The full scan satisfies the invariant over the whole scanned list. -/
theorem scanBlobs_inv (b : Blob) (obs : List Blob) :
    ScanInv b obs (scanBlobs b obs) := by
  have main : ∀ (obs : List Blob) (st : ScanSt) (seen : List Blob),
      ScanInv b seen st → ScanInv b (seen ++ obs) (obs.foldl (scanStep b) st) := by
    intro obs
    induction obs with
    | nil =>
      intro st seen h
      simpa using h
    | cons ob rest ih =>
      intro st seen h
      have h2 := ih (scanStep b st ob) (seen ++ [ob]) (scanStep_inv b st ob seen h)
      simpa [List.append_assoc] using h2
  have base : ScanInv b [] scanInit := by
    refine ⟨fun _ => ⟨rfl, by simp⟩, ?_, fun _ => ⟨rfl, by simp⟩, ?_⟩
    · intro t ht
      simp [scanInit] at ht
    · intro p hp
      simp [scanInit] at hp
  simpa using main obs scanInit [] base

/-- Evaluation rule for hypot at concrete values. -/
theorem hypot_eval {x y d : ℝ} (hd : 0 ≤ d) (h : d * d = x * x + y * y) :
    hypot x y = d :=
  sqrt_eval hd h

/-- The normalize result is a unit vector or the zero vector. -/
theorem normalize_unit_or_zero (x y : ℝ) :
    ((normalize x y).1)^2 + ((normalize x y).2)^2 = 1 ∨ normalize x y = (0, 0) := by
  unfold normalize
  dsimp only
  by_cases h : hypot x y < 1e-6
  · right
    rw [if_pos h]
  · left
    rw [if_neg h]
    have hge : (1e-6:ℝ) ≤ hypot x y := not_lt.mp h
    have hpos : 0 < hypot x y := lt_of_lt_of_le (by norm_num) hge
    have hsq : hypot x y * hypot x y = x * x + y * y := by
      unfold hypot
      exact Real.mul_self_sqrt (add_nonneg (mul_self_nonneg x) (mul_self_nonneg y))
    dsimp only
    field_simp
    nlinarith [hsq]

/-- C7 amended: the bot decision follows the flee / chase / wander priority —
with a threat present it aims (after normalization) away from a nearest
threat and disables boost; with no threat but prey it aims toward a nearest
prey and boosts exactly when the Math.random draw is below 0.20; otherwise it
aims toward the rng-chosen pellet (zero aim when there is none); and the
stored aim is always a unit vector or the zero vector (the latter also when
the chosen target lies within the 1e-6 normalization cutoff of the bot). -/
theorem botDecide_spec :
    ∀ (b : Blob) (obs : List Blob) (pellets : List Pellet) (rdraw mdraw : ℝ),
      ((∃ ob ∈ obs, isThreat b ob) →
          (botDecide b obs pellets rdraw mdraw).2.2 = BotBranch.flee
          ∧ (botDecide b obs pellets rdraw mdraw).2.1 = false
          ∧ ∃ t ∈ obs, isThreat b t
              ∧ (∀ ob ∈ obs, isThreat b ob → distTo b t ≤ distTo b ob)
              ∧ (botDecide b obs pellets rdraw mdraw).1 = normalize (b.x - t.x) (b.y - t.y))
      ∧ ((¬∃ ob ∈ obs, isThreat b ob) → (∃ ob ∈ obs, isPrey b ob) →
          (botDecide b obs pellets rdraw mdraw).2.2 = BotBranch.chase
          ∧ (botDecide b obs pellets rdraw mdraw).2.1 = decide (mdraw < 0.20)
          ∧ ∃ p ∈ obs, isPrey b p
              ∧ (∀ ob ∈ obs, isPrey b ob → distTo b p ≤ distTo b ob)
              ∧ (botDecide b obs pellets rdraw mdraw).1 = normalize (p.x - b.x) (p.y - b.y))
      ∧ ((¬∃ ob ∈ obs, isThreat b ob) → (¬∃ ob ∈ obs, isPrey b ob) →
          (botDecide b obs pellets rdraw mdraw).2.2 = BotBranch.wander
          ∧ (botDecide b obs pellets rdraw mdraw).2.1 = false
          ∧ ((∃ pel, pelletPick pellets rdraw = some pel
                ∧ (botDecide b obs pellets rdraw mdraw).1
                    = normalize (pel.x - b.x) (pel.y - b.y))
              ∨ (pelletPick pellets rdraw = none
                ∧ (botDecide b obs pellets rdraw mdraw).1 = normalize 0 0)))
      ∧ (((botDecide b obs pellets rdraw mdraw).1.1)^2
            + ((botDecide b obs pellets rdraw mdraw).1.2)^2 = 1
          ∨ (botDecide b obs pellets rdraw mdraw).1 = (0, 0)) := by
  intro b obs pellets rdraw mdraw
  obtain ⟨hTN, hTS, hPN, hPS⟩ := scanBlobs_inv b obs
  have heval : ∀ P : (ℝ × ℝ) × Bool × BotBranch → Prop,
      (∀ t, (scanBlobs b obs).threat = some t →
        P (normalize (b.x - t.x) (b.y - t.y), false, BotBranch.flee)) →
      ((scanBlobs b obs).threat = none → ∀ p, (scanBlobs b obs).prey = some p →
        P (normalize (p.x - b.x) (p.y - b.y), decide (mdraw < 0.20), BotBranch.chase)) →
      ((scanBlobs b obs).threat = none → (scanBlobs b obs).prey = none →
        ∀ pel, pelletPick pellets rdraw = some pel →
        P (normalize (pel.x - b.x) (pel.y - b.y), false, BotBranch.wander)) →
      ((scanBlobs b obs).threat = none → (scanBlobs b obs).prey = none →
        pelletPick pellets rdraw = none →
        P (normalize 0 0, false, BotBranch.wander)) →
      P (botDecide b obs pellets rdraw mdraw) := by
    intro P h1 h2 h3 h4
    simp only [botDecide]
    cases hthr : (scanBlobs b obs).threat with
    | some t => exact h1 t hthr
    | none =>
      cases hprey : (scanBlobs b obs).prey with
      | some p => exact h2 hthr p hprey
      | none =>
        cases hpel : pelletPick pellets rdraw with
        | some pel => exact h3 hthr hprey pel hpel
        | none => exact h4 hthr hprey hpel
  refine ⟨?_, ?_, ?_, ?_⟩
  · rintro ⟨ob0, hob0, hth0⟩
    refine heval (fun out => out.2.2 = BotBranch.flee ∧ out.2.1 = false
      ∧ ∃ t ∈ obs, isThreat b t ∧ (∀ ob ∈ obs, isThreat b ob → distTo b t ≤ distTo b ob)
          ∧ out.1 = normalize (b.x - t.x) (b.y - t.y)) ?_ ?_ ?_ ?_
    · intro t hthr
      obtain ⟨hmem, hT, hD, hmin⟩ := hTS t hthr
      exact ⟨rfl, rfl, t, hmem, hT, fun ob hob h => hD ▸ hmin ob hob h, rfl⟩
    · intro hthr _ _
      exact absurd hth0 ((hTN hthr).2 ob0 hob0)
    · intro hthr _ _ _
      exact absurd hth0 ((hTN hthr).2 ob0 hob0)
    · intro hthr _ _
      exact absurd hth0 ((hTN hthr).2 ob0 hob0)
  · rintro hnoth ⟨ob0, hob0, hpr0⟩
    refine heval (fun out => out.2.2 = BotBranch.chase ∧ out.2.1 = decide (mdraw < 0.20)
      ∧ ∃ p ∈ obs, isPrey b p ∧ (∀ ob ∈ obs, isPrey b ob → distTo b p ≤ distTo b ob)
          ∧ out.1 = normalize (p.x - b.x) (p.y - b.y)) ?_ ?_ ?_ ?_
    · intro t hthr
      exact absurd ⟨t, (hTS t hthr).1, (hTS t hthr).2.1⟩ hnoth
    · intro _ p hprey
      obtain ⟨hmem, hP, hD, hmin⟩ := hPS p hprey
      exact ⟨rfl, rfl, p, hmem, hP, fun ob hob h => hD ▸ hmin ob hob h, rfl⟩
    · intro _ hprey _ _
      exact absurd hpr0 ((hPN hprey).2 ob0 hob0)
    · intro _ hprey _
      exact absurd hpr0 ((hPN hprey).2 ob0 hob0)
  · intro hnoth hnopr
    refine heval (fun out => out.2.2 = BotBranch.wander ∧ out.2.1 = false
      ∧ ((∃ pel, pelletPick pellets rdraw = some pel
            ∧ out.1 = normalize (pel.x - b.x) (pel.y - b.y))
          ∨ (pelletPick pellets rdraw = none ∧ out.1 = normalize 0 0))) ?_ ?_ ?_ ?_
    · intro t hthr
      exact absurd ⟨t, (hTS t hthr).1, (hTS t hthr).2.1⟩ hnoth
    · intro _ p hprey
      exact absurd ⟨p, (hPS p hprey).1, (hPS p hprey).2.1⟩ hnopr
    · intro _ _ pel hpel
      exact ⟨rfl, rfl, Or.inl ⟨pel, hpel, rfl⟩⟩
    · intro _ _ hpel
      exact ⟨rfl, rfl, Or.inr ⟨hpel, rfl⟩⟩
  · refine heval (fun out => (out.1.1)^2 + (out.1.2)^2 = 1 ∨ out.1 = (0, 0)) ?_ ?_ ?_ ?_
    · intro t _
      exact normalize_unit_or_zero _ _
    · intro _ p _
      exact normalize_unit_or_zero _ _
    · intro _ _ pel _
      exact normalize_unit_or_zero _ _
    · intro _ _ _
      exact normalize_unit_or_zero _ _

/-- Helper evaluation: the scan of bC7 over the coincident threat obC7. -/
theorem scan_bC7_eval :
    scanBlobs bC7 [obC7] = { threat := some obC7, threatD := 0, prey := none, preyD := 1e9 } := by
  have hd : hypot (bC7.x - obC7.x) (bC7.y - obC7.y) = 0 := by
    show hypot (100 - 100) (100 - 100) = 0
    rw [show (100:ℝ) - 100 = 0 by norm_num, hypot_zero]
  show scanStep bC7 scanInit obC7 = _
  simp only [scanStep, scanInit, bC7, obC7]
  norm_num [hypot_zero]

/-- normalize of the zero vector is the zero vector. -/
theorem normalize_zero : normalize 0 0 = (0, 0) := by
  unfold normalize
  rw [hypot_zero]
  norm_num

/-- C7 counterexample: with a threat at exactly the bot's position, the
stored aim is the zero vector even though a target exists — the aim is not a
unit vector. -/
theorem bot_zero_aim_with_threat :
    (botDecide bC7 [obC7] [] 0 0).1 = (0, 0)
    ∧ isThreat bC7 obC7
    ∧ ¬(((botDecide bC7 [obC7] [] 0 0).1.1)^2 + ((botDecide bC7 [obC7] [] 0 0).1.2)^2 = 1) := by
  have hd : hypot (bC7.x - obC7.x) (bC7.y - obC7.y) = 0 := by
    show hypot (100 - 100) (100 - 100) = 0
    rw [show (100:ℝ) - 100 = 0 by norm_num, hypot_zero]
  have hbd : (botDecide bC7 [obC7] [] 0 0).1 = (0, 0) := by
    unfold botDecide
    rw [scan_bC7_eval]
    show normalize (bC7.x - obC7.x) (bC7.y - obC7.y) = (0, 0)
    show normalize (100 - 100) (100 - 100) = (0, 0)
    rw [show (100:ℝ) - 100 = 0 by norm_num, normalize_zero]
  refine ⟨hbd, ⟨?_, ?_⟩, ?_⟩
  · rw [hd]
    norm_num
  · show (30:ℝ) > 20 * 1.10
    norm_num
  · rw [hbd]
    norm_num

/-- Witness for the amended C7: a threat 100 units to the right makes the bot
flee with boost disabled. -/
theorem botDecide_spec_witness :
    (∃ ob ∈ [obC7w], isThreat bC7 ob)
    ∧ (botDecide bC7 [obC7w] [] 0 0).2.2 = BotBranch.flee
    ∧ (botDecide bC7 [obC7w] [] 0 0).2.1 = false := by
  have hth : isThreat bC7 obC7w := by
    constructor
    · show hypot (100 - 200) (100 - 100) < 900
      rw [hypot_eval (show (0:ℝ) ≤ 100 by norm_num)
        (show (100:ℝ) * 100 = (100 - 200) * (100 - 200) + (100 - 100) * (100 - 100) by norm_num)]
      norm_num
    · show (30:ℝ) > 20 * 1.10
      norm_num
  have hex : ∃ ob ∈ [obC7w], isThreat bC7 ob := ⟨obC7w, by simp, hth⟩
  have h := (botDecide_spec bC7 [obC7w] [] 0 0).1 hex
  exact ⟨hex, h.1, h.2.1⟩

/-! ## C6 — randomness sources and reproducibility -/

/-- The bot aim and branch do not depend on the Math.random draw (only the
boost flag does). -/
theorem botDecide_mfree (b : Blob) (obs : List Blob) (pellets : List Pellet)
    (rdraw m m' : ℝ) :
    (botDecide b obs pellets rdraw m).1 = (botDecide b obs pellets rdraw m').1
    ∧ (botDecide b obs pellets rdraw m).2.2 = (botDecide b obs pellets rdraw m').2.2 := by
  simp only [botDecide]
  cases (scanBlobs b obs).threat with
  | some t => exact ⟨rfl, rfl⟩
  | none =>
    cases (scanBlobs b obs).prey with
    | some p => exact ⟨rfl, rfl⟩
    | none =>
      cases pelletPick pellets rdraw with
      | some pel => exact ⟨rfl, rfl⟩
      | none => exact ⟨rfl, rfl⟩

/-- Two agents with equal sansBoost images share all fields except possibly
boost. -/
theorem sansBoost_fields {a b : Agent} (h : sansBoost a = sansBoost b) :
    a.id = b.id ∧ a.dead = b.dead ∧ a.isBot = b.isBot ∧ a.blobs = b.blobs := by
  refine ⟨?_, ?_, ?_, ?_⟩
  · have h1 := congrArg Agent.id h
    simpa [sansBoost] using h1
  · have h1 := congrArg Agent.dead h
    simpa [sansBoost] using h1
  · have h1 := congrArg Agent.isBot h
    simpa [sansBoost] using h1
  · have h1 := congrArg Agent.blobs h
    simpa [sansBoost] using h1

/-- The scanned blob list is insensitive to boost flags. -/
theorem otherBlobs_congr :
    ∀ (l1 l2 : List Agent) (a1 a2 : Agent),
      l1.map sansBoost = l2.map sansBoost → sansBoost a1 = sansBoost a2 →
      otherBlobs l1 a1 = otherBlobs l2 a2 := by
  intro l1
  induction l1 with
  | nil =>
    intro l2 a1 a2 hl _
    have h0 : l2.map sansBoost = [] := by simpa using hl.symm
    have : l2 = [] := List.map_eq_nil_iff.mp h0
    subst this
    rfl
  | cons x xs ih =>
    intro l2 a1 a2 hl hsb
    cases l2 with
    | nil => simp at hl
    | cons y ys =>
      simp only [List.map_cons, List.cons.injEq] at hl
      obtain ⟨hxy, hrest⟩ := hl
      have hid : x.id = y.id := (sansBoost_fields hxy).1
      have hdead : x.dead = y.dead := (sansBoost_fields hxy).2.1
      have hblobs : x.blobs = y.blobs := (sansBoost_fields hxy).2.2.2
      have haid : a1.id = a2.id := (sansBoost_fields hsb).1
      have hih := ih ys a1 a2 hrest hsb
      simp only [otherBlobs, List.filter_cons, decide_eq_true_eq] at hih ⊢
      by_cases hc : (y.id ≠ a2.id ∧ y.dead = false)
      · rw [if_pos (by rw [hid, haid, hdead]; exact hc), if_pos hc]
        simp only [List.flatMap_cons]
        rw [hblobs, hih]
      · rw [if_neg (by rw [hid, haid, hdead]; exact hc), if_neg hc]
        exact hih

/-- One bot-AI step is reproducible up to the boost flag: related inputs give
related output agents and identical draw counters. -/
theorem botAgentStep_rel (pellets : List Pellet) (rng m1 m2 : ℕ → ℝ)
    (l1 l2 : List Agent) (a1 a2 : Agent) (k j : ℕ)
    (hl : l1.map sansBoost = l2.map sansBoost) (hsb : sansBoost a1 = sansBoost a2) :
    sansBoost (botAgentStep pellets rng m1 l1 a1 k j).1
      = sansBoost (botAgentStep pellets rng m2 l2 a2 k j).1
    ∧ (botAgentStep pellets rng m1 l1 a1 k j).2 = (botAgentStep pellets rng m2 l2 a2 k j).2 := by
  have hdead : a1.dead = a2.dead := (sansBoost_fields hsb).2.1
  have hbot : a1.isBot = a2.isBot := (sansBoost_fields hsb).2.2.1
  have hblobs : a1.blobs = a2.blobs := (sansBoost_fields hsb).2.2.2
  unfold botAgentStep
  by_cases hskip : a1.dead = true ∨ a1.isBot = false
  · rw [if_pos hskip, if_pos (by rw [← hdead, ← hbot]; exact hskip)]
    exact ⟨hsb, rfl⟩
  · rw [if_neg hskip, if_neg (by rw [← hdead, ← hbot]; exact hskip)]
    have hh2 : a2.blobs.head? = a1.blobs.head? := by rw [hblobs]
    rw [hh2]
    cases hh : a1.blobs.head? with
    | none => exact ⟨hsb, rfl⟩
    | some b =>
      have hob : otherBlobs l2 a2 = otherBlobs l1 a1 :=
        (otherBlobs_congr l1 l2 a1 a2 hl hsb).symm
      rw [hob]
      dsimp only
      have hbd := botDecide_mfree b (otherBlobs l1 a1) pellets (rng k) (m1 j) (m2 j)
      have haim : (botDecide b (otherBlobs l1 a1) pellets (rng k) (m2 j)).1
          = (botDecide b (otherBlobs l1 a1) pellets (rng k) (m1 j)).1 := hbd.1.symm
      have hbr : (botDecide b (otherBlobs l1 a1) pellets (rng k) (m2 j)).2.2
          = (botDecide b (otherBlobs l1 a1) pellets (rng k) (m1 j)).2.2 := hbd.2.symm
      rw [haim, hbr]
      have hupd : sansBoost { a1 with
            aimX := (botDecide b (otherBlobs l1 a1) pellets (rng k) (m1 j)).1.1,
            aimY := (botDecide b (otherBlobs l1 a1) pellets (rng k) (m1 j)).1.2,
            boost := (botDecide b (otherBlobs l1 a1) pellets (rng k) (m1 j)).2.1 }
          = sansBoost { a2 with
            aimX := (botDecide b (otherBlobs l1 a1) pellets (rng k) (m1 j)).1.1,
            aimY := (botDecide b (otherBlobs l1 a1) pellets (rng k) (m1 j)).1.2,
            boost := (botDecide b (otherBlobs l1 a1) pellets (rng k) (m2 j)).2.1 } := by
        exact congrArg (fun x => { x with
          aimX := (botDecide b (otherBlobs l1 a1) pellets (rng k) (m1 j)).1.1,
          aimY := (botDecide b (otherBlobs l1 a1) pellets (rng k) (m1 j)).1.2 }) hsb
      cases (botDecide b (otherBlobs l1 a1) pellets (rng k) (m1 j)).2.2 with
      | flee => exact ⟨hupd, rfl⟩
      | chase => exact ⟨hupd, rfl⟩
      | wander => exact ⟨hupd, rfl⟩

/-- The bot-AI phase iteration preserves the boost-insensitive relation. -/
theorem botAIPhaseAux_rel (pellets : List Pellet) (rng m1 m2 : ℕ → ℝ) :
    ∀ (n i : ℕ) (l1 l2 : List Agent) (k j : ℕ),
      l1.map sansBoost = l2.map sansBoost →
      (botAIPhaseAux pellets rng m1 n i l1 k j).1.map sansBoost
        = (botAIPhaseAux pellets rng m2 n i l2 k j).1.map sansBoost
      ∧ (botAIPhaseAux pellets rng m1 n i l1 k j).2.1
          = (botAIPhaseAux pellets rng m2 n i l2 k j).2.1 := by
  intro n
  induction n with
  | zero =>
    intro i l1 l2 k j hl
    exact ⟨hl, rfl⟩
  | succ n ih =>
    intro i l1 l2 k j hl
    have hget : l1[i]?.map sansBoost = l2[i]?.map sansBoost := by
      rw [← List.getElem?_map, ← List.getElem?_map, hl]
    unfold botAIPhaseAux
    cases h1 : l1[i]? with
    | none =>
      have h2 : l2[i]? = none := by
        rw [h1] at hget
        cases h2' : l2[i]? with
        | none => rfl
        | some a2 =>
          rw [h2'] at hget
          simp at hget
      rw [h2]
      exact ⟨hl, rfl⟩
    | some a1 =>
      rw [h1] at hget
      obtain ⟨a2, h2, hsb⟩ : ∃ a2, l2[i]? = some a2 ∧ sansBoost a1 = sansBoost a2 := by
        cases h2' : l2[i]? with
        | none =>
          rw [h2'] at hget
          simp at hget
        | some a2 =>
          rw [h2'] at hget
          simp only [Option.map_some'] at hget
          exact ⟨a2, rfl, Option.some.injEq .. |>.mp hget⟩
      rw [h2]
      have hstep := botAgentStep_rel pellets rng m1 m2 l1 l2 a1 a2 k j hl hsb
      have hl' : (l1.set i (botAgentStep pellets rng m1 l1 a1 k j).1).map sansBoost
          = (l2.set i (botAgentStep pellets rng m2 l2 a2 k j).1).map sansBoost := by
        rw [List.map_set, List.map_set, hl, hstep.1]
      have hk : (botAgentStep pellets rng m1 l1 a1 k j).2.1
          = (botAgentStep pellets rng m2 l2 a2 k j).2.1 := congrArg Prod.fst hstep.2
      have hj : (botAgentStep pellets rng m1 l1 a1 k j).2.2
          = (botAgentStep pellets rng m2 l2 a2 k j).2.2 := congrArg Prod.snd hstep.2
      dsimp only
      rw [hk, hj]
      exact ih (i + 1) _ _ _ _ hl'

/-- C6 amended: the bot-AI phase is reproducible up to the Math.random-driven
boost flags — for a fixed room (same agents, pellets, seeded stream and draw
counter), any two Math.random streams yield agent lists that agree on
everything except boost, and the same seeded-draw counter. -/
theorem botAIPhase_reproducible :
    ∀ (pellets : List Pellet) (rng m1 m2 : ℕ → ℝ) (agents : List Agent) (k j : ℕ),
      (botAIPhase pellets rng m1 agents k j).1.map sansBoost
        = (botAIPhase pellets rng m2 agents k j).1.map sansBoost
      ∧ (botAIPhase pellets rng m1 agents k j).2.1
          = (botAIPhase pellets rng m2 agents k j).2.1 := by
  intro pellets rng m1 m2 agents k j
  exact botAIPhaseAux_rel pellets rng m1 m2 agents.length 0 agents agents k j rfl

/-- normalize of (100, 0) is the unit vector (1, 0). -/
theorem normalize_hundred : normalize (100:ℝ) 0 = (1, 0) := by
  unfold normalize
  rw [hypot_axis (by norm_num : (0:ℝ) ≤ 100)]
  rw [if_neg (by norm_num)]
  norm_num

/-- Helper evaluation: the scan of the bot blob over the prey blob 100 units
away. -/
theorem scan_bBot6_eval :
    scanBlobs bBot6 [bHum6]
      = { threat := none, threatD := 1e9, prey := some bHum6, preyD := hypot (-100 : ℝ) 0 } := by
  show scanStep bBot6 scanInit bHum6 = _
  simp only [scanStep, scanInit, bBot6, bHum6]
  have h100 : hypot (-100 : ℝ) 0 = 100 := hypot_eval (by norm_num) (by norm_num)
  norm_num [h100]

/-- Helper evaluation: the bot decision against the single prey — chase with
aim (1, 0) and boost decided by the Math.random draw. -/
theorem botDecide_eval6 (rdraw mdraw : ℝ) :
    botDecide bBot6 [bHum6] [] rdraw mdraw
      = ((1, 0), decide (mdraw < 0.20), BotBranch.chase) := by
  have h100 : hypot (-100 : ℝ) 0 = 100 := hypot_eval (by norm_num) (by norm_num)
  simp only [botDecide, scan_bBot6_eval]
  show (normalize (bHum6.x - bBot6.x) (bHum6.y - bBot6.y), decide (mdraw < 0.20),
      BotBranch.chase) = _
  show (normalize (200 - 100) (100 - 100), decide (mdraw < 0.20), BotBranch.chase) = _
  rw [show (200:ℝ) - 100 = 100 by norm_num, show (100:ℝ) - 100 = 0 by norm_num,
    normalize_hundred]

/-- Helper evaluation: the bot-AI phase on the two-agent room updates only the
bot, aiming (1, 0) at its prey, with boost decided by the Math.random stream
at index 0 and one Math.random draw consumed. -/
theorem botAIPhase_eval6 (rs m : ℕ → ℝ) :
    botAIPhase [] rs m [botA6, humA6] 0 0
      = ([{ botA6 with aimX := 1, aimY := 0, boost := decide (m 0 < 0.20) }, humA6], 0, 1) := by
  have hob : otherBlobs [botA6, humA6] botA6 = [bHum6] := by
    simp only [otherBlobs, List.filter_cons, List.filter_nil, decide_eq_true_eq]
    rw [if_neg (by simp [botA6, mkAgent]), if_pos (by
      refine ⟨?_, rfl⟩
      show ("h1" : String) ≠ "b1"
      decide)]
    simp [humA6, mkAgent]
  have hstep0 : botAgentStep [] rs m [botA6, humA6] botA6 0 0
      = ({ botA6 with aimX := 1, aimY := 0, boost := decide (m 0 < 0.20) }, 0, 1) := by
    unfold botAgentStep
    rw [if_neg (by simp [botA6, mkAgent])]
    have hh : botA6.blobs.head? = some bBot6 := rfl
    rw [hh]
    dsimp only
    rw [hob, botDecide_eval6]
  have hstep1 : botAgentStep [] rs m
      [{ botA6 with aimX := 1, aimY := 0, boost := decide (m 0 < 0.20) }, humA6] humA6 0 1
      = (humA6, 0, 1) := by
    unfold botAgentStep
    rw [if_pos (show humA6.dead = true ∨ humA6.isBot = false from Or.inr rfl)]
  show botAIPhaseAux [] rs m 2 0 [botA6, humA6] 0 0 = _
  have e2 : botAIPhaseAux [] rs m 2 0 [botA6, humA6] 0 0
      = botAIPhaseAux [] rs m 1 1
          ([botA6, humA6].set 0 (botAgentStep [] rs m [botA6, humA6] botA6 0 0).1)
          (botAgentStep [] rs m [botA6, humA6] botA6 0 0).2.1
          (botAgentStep [] rs m [botA6, humA6] botA6 0 0).2.2 := rfl
  rw [e2, hstep0]
  have e3 : botAIPhaseAux [] rs m 1 1
      ([botA6, humA6].set 0
        ({ botA6 with aimX := 1, aimY := 0, boost := decide (m 0 < 0.20) }, (0:ℕ), (1:ℕ)).1)
      ((({ botA6 with aimX := 1, aimY := 0, boost := decide (m 0 < 0.20) } : Agent), (0:ℕ),
          (1:ℕ)) : Agent × ℕ × ℕ).2.1
      ((({ botA6 with aimX := 1, aimY := 0, boost := decide (m 0 < 0.20) } : Agent), (0:ℕ),
          (1:ℕ)) : Agent × ℕ × ℕ).2.2
      = botAIPhaseAux [] rs m 1 1
          [{ botA6 with aimX := 1, aimY := 0, boost := decide (m 0 < 0.20) }, humA6] 0 1 := rfl
  rw [e3]
  have e4 : botAIPhaseAux [] rs m 1 1
      [{ botA6 with aimX := 1, aimY := 0, boost := decide (m 0 < 0.20) }, humA6] 0 1
      = botAIPhaseAux [] rs m 0 2
          ([{ botA6 with aimX := 1, aimY := 0, boost := decide (m 0 < 0.20) }, humA6].set 1
            (botAgentStep [] rs m
              [{ botA6 with aimX := 1, aimY := 0, boost := decide (m 0 < 0.20) }, humA6]
              humA6 0 1).1)
          (botAgentStep [] rs m
            [{ botA6 with aimX := 1, aimY := 0, boost := decide (m 0 < 0.20) }, humA6]
            humA6 0 1).2.1
          (botAgentStep [] rs m
            [{ botA6 with aimX := 1, aimY := 0, boost := decide (m 0 < 0.20) }, humA6]
            humA6 0 1).2.2 := rfl
  rw [e4, hstep1]
  rfl

/-- C6 counterexample: two runs of the bot-AI phase on the same room state
with the same seeded stream but different Math.random streams produce
different room states (the bot's boost flag differs), so simulation behavior
is not reproducible from the room seed and call sequence alone. -/
theorem tick_depends_on_global_random :
    botAIPhase [] (mulberryStream (hashSeed "ROOMA")) mLow [botA6, humA6] 0 0
      ≠ botAIPhase [] (mulberryStream (hashSeed "ROOMA")) mHigh [botA6, humA6] 0 0 := by
  intro h
  have h1 := congrArg (fun s => s.1.map Agent.boost) h
  rw [botAIPhase_eval6, botAIPhase_eval6] at h1
  simp only [List.map_cons, List.map_nil] at h1
  have hlow : decide (mLow 0 < 0.20) = true := by
    rw [decide_eq_true_eq]
    norm_num [mLow]
  have hhigh : decide (mHigh 0 < 0.20) = false := by
    rw [decide_eq_false_iff_not]
    norm_num [mHigh]
  rw [hlow, hhigh] at h1
  simp at h1

/-! ## C10 — joinRoom -/

/-- C10: joinRoom is rejected as not-found exactly when the code is unknown;
against a known room it is rejected as full exactly when the human count is
at or above maxPlayers; otherwise it succeeds, installing a freshly spawned
human agent under the given identity via the id-keyed set (which replaces any
agent already stored under that identity, human or bot, and never rejects on
an identity collision). -/
theorem joinRoom_correct :
    ∀ (store : String → Option Room) (code id name : String) (now : ℝ),
      (joinRoom store code id name now = JoinRes.notFound ↔ store code = none)
      ∧ (∀ room, store code = some room →
          (joinRoom store code id name now = JoinRes.full
            ↔ (humanCount room.agents : ℝ) ≥ room.maxPlayers))
      ∧ (∀ room, store code = some room →
          (humanCount room.agents : ℝ) < room.maxPlayers →
          joinRoom store code id name now
            = JoinRes.ok { room with
                agents := setAgent room.agents
                  (spawnAgent id name false room.rngDraws room.rngK now).1,
                rngK := (spawnAgent id name false room.rngDraws room.rngK now).2 } id) := by
  intro store code id name now
  refine ⟨⟨?_, ?_⟩, ?_, ?_⟩
  · intro h
    cases hs : store code with
    | none => rfl
    | some room =>
      unfold joinRoom at h
      rw [hs] at h
      dsimp only at h
      by_cases hf : (humanCount room.agents : ℝ) ≥ room.maxPlayers
      · rw [if_pos hf] at h
        exact absurd h (by simp)
      · rw [if_neg hf] at h
        exact absurd h (by simp)
  · intro h
    unfold joinRoom
    rw [h]
  · intro room hs
    constructor
    · intro h
      unfold joinRoom at h
      rw [hs] at h
      dsimp only at h
      by_cases hf : (humanCount room.agents : ℝ) ≥ room.maxPlayers
      · exact hf
      · rw [if_neg hf] at h
        exact absurd h (by simp)
    · intro hf
      unfold joinRoom
      rw [hs]
      dsimp only
      rw [if_pos hf]
  · intro room hs hlt
    unfold joinRoom
    rw [hs]
    dsimp only
    rw [if_neg (not_le.mpr hlt)]

/-- Witness for C10: joining the one-bot room under code AAAAAA succeeds and
installs the spawned human under id p9. -/
theorem joinRoom_correct_witness :
    (humanCount roomW.agents : ℝ) < roomW.maxPlayers
    ∧ joinRoom storeW "AAAAAA" "p9" "Nina" 0
        = JoinRes.ok { roomW with
            agents := setAgent roomW.agents
              (spawnAgent "p9" "Nina" false roomW.rngDraws roomW.rngK 0).1,
            rngK := (spawnAgent "p9" "Nina" false roomW.rngDraws roomW.rngK 0).2 } "p9" := by
  have h0 : humanCount roomW.agents = 0 := rfl
  have hlt : (humanCount roomW.agents : ℝ) < roomW.maxPlayers := by
    rw [h0]
    show ((0:ℕ) : ℝ) < roomW.maxPlayers
    norm_num [roomW]
  exact ⟨hlt, (joinRoom_correct storeW "AAAAAA" "p9" "Nina" 0).2.2 roomW rfl hlt⟩

end CellClash
